import Mathlib

/-!
Verification of the mixoss mixer program (src/mixoss.c) against its
natural-language specification.

The development shallowly embeds the program's data model and the pure
core of its operations:

* the volume codec of `get_control_volume` / `set_control_volume`
  (lines 97-170 of mixoss.c);
* the `load_mixers` startup routine (lines 187-273), including
  `reverse_control_list` (lines 172-185);
* the navigation engine `move_to_next_control` /
  `move_to_previous_control` (lines 429-473);
* the volume mutation handlers `modify_volume` / `set_volume`
  (lines 475-512);
* the redraw scheduler `draw_control` / `draw_ui` (lines 327-427) and
  the dirty-marking step of the poll loop (lines 569-571).

ioctl transports are modelled as oracles (`Option`-valued inputs);
machine pointers (`struct control *`) are modelled as `Option Nat`
indices into the control array, with `none` playing the role of the
null pointer.  A dereference of a null pointer is modelled by the
operation returning `none` (an error outcome distinct from a no-op).
-/

/-- The control types the program distinguishes (`info.type`,
lines 117-126 and 250-251).  `MIXT_STEREOSLIDER` has 8-bit channel
samples, `MIXT_STEREOSLIDER16` 16-bit ones; every other value of
`oss_mixext.type` falls into the `other` bucket, which the program
treats uniformly (not navigable, zero channel samples). -/
inductive CtrlType where
  | stereoSlider
  | stereoSlider16
  | other
  deriving DecidableEq

/-- The condition of line 250-251:
`ctrl->info.type == MIXT_STEREOSLIDER || ctrl->info.type == MIXT_STEREOSLIDER16`. -/
def navigableKind (t : CtrlType) : Bool :=
  match t with
  | .stereoSlider => true
  | .stereoSlider16 => true
  | .other => false

/-- Static per-control metadata returned by the `SNDCTL_MIX_EXTINFO`
transport, together with the result of the `sscanf(ctrl->info.id,
"@pcm%d", ...)` pattern match of line 245 (`isVmix`). -/
structure CtrlMeta where
  ctype : CtrlType
  isVmix : Bool
  minvalue : Int
  maxvalue : Int
  deriving DecidableEq

/-- `struct control` (lines 34-42).  The `info` fields used by the core
are inlined; `uiPrev`/`uiNext` are the `ui_prev`/`ui_next` pointers,
modelled as indices into the owning control array (`none` = NULL). -/
structure Control where
  dev : Nat
  ctrl : Nat
  ctype : CtrlType
  isVmix : Bool
  minvalue : Int
  maxvalue : Int
  needsRedraw : Bool
  uiPrev : Option Nat
  uiNext : Option Nat
  deriving DecidableEq

/-- The zeroed control produced by `calloc` (line 218): type 0 is none
of the slider types, pointers are NULL, flags are 0. -/
def callocControl : Control :=
  { dev := 0, ctrl := 0, ctype := .other, isVmix := false,
    minvalue := 0, maxvalue := 0, needsRedraw := false,
    uiPrev := none, uiNext := none }

/-! ## Volume codec (get_control_volume / set_control_volume) -/

/-- Left-channel extraction from the packed raw value
(`get_control_volume`, lines 117-126): low byte for
`MIXT_STEREOSLIDER`, low 16 bits for `MIXT_STEREOSLIDER16`, 0
otherwise.  Packed raw values are nonnegative machine words, modelled
as `Nat`.  (The right channel is also extracted by the C code but is
never used for display or mutation.) -/
def vleftOf (t : CtrlType) (raw : Nat) : Nat :=
  match t with
  | .stereoSlider => raw &&& 0xff
  | .stereoSlider16 => raw &&& 0xffff
  | .other => 0

/-- `get_control_volume` line 131:
`return min + (vleft * 100) / (max - min);` — C integer division
truncates toward zero, i.e. `Int.tdiv`. -/
def decodeVolume (t : CtrlType) (minv maxv : Int) (raw : Nat) : Int :=
  minv + Int.tdiv ((vleftOf t raw : Int) * 100) (maxv - minv)

/-- `set_control_volume` line 147:
`vleft = min + (volume * (max - min)) / 100;` -/
def encodeNative (minv maxv volume : Int) : Int :=
  minv + Int.tdiv (volume * (maxv - minv)) 100

/-- Packing of the two channel samples into the written word
(`set_control_volume`, lines 150-156): `vleft | (vright << 8)` for the
8-bit kind, `vleft | (vright << 16)` for the 16-bit kind, 0 otherwise. -/
def packValue (t : CtrlType) (vleft vright : Nat) : Nat :=
  match t with
  | .stereoSlider => vleft ||| (vright <<< 8)
  | .stereoSlider16 => vleft ||| (vright <<< 16)
  | .other => 0

/-- A write request issued to the `SNDCTL_MIX_WRITE` transport:
the native left-channel sample and the packed word.  (`vright = vleft`
on line 148, so only one sample appears.) -/
structure WriteReq where
  vleft : Int
  value : Nat
  deriving DecidableEq

/-- The pure part of `set_control_volume` (lines 144-161): encode the
percentage into a native sample, duplicate it into both channels, pack.
The packing is stated on the nonnegative range (`Int.toNat`); every
input reaching it in the claims has `minvalue ≥ 0`, and C's `|`/`<<`
on negative operands is not relied upon by any claim. -/
def setControlVolumeReq (t : CtrlType) (minv maxv volume : Int) : WriteReq :=
  let vleft := encodeNative minv maxv volume
  { vleft := vleft, value := packValue t vleft.toNat vleft.toNat }

/-- The clamp used by `modify_volume` (lines 490-494) and `set_volume`
(lines 505-509). -/
def clampVolume (v : Int) : Int :=
  if v < 0 then 0 else if v > 100 then 100 else v

/-- `gauge_width` (line 65). -/
def gaugeWidth : Int := 20

/-- `poll_interval` and the rest of the UI constants are irrelevant to
the claims; the increment of `modify_volume` line 482 is
`sign * (100 / gauge_width)`. -/
def volumeStep (sign : Int) : Int := sign * Int.tdiv 100 gaugeWidth

/-! ## Array helpers

All control-array access goes through `updC` (in-place field update at
an index, a no-op out of bounds) so that the later lemmas can reason
uniformly.  Out-of-bounds accesses are undefined behaviour in the C
program; no claim's input reaches one. -/

/-- Update the control at index `i`, if it exists. -/
def updC (a : Array Control) (i : Nat) (f : Control → Control) : Array Control :=
  if h : i < a.size then a.set ⟨i, h⟩ (f (a.get ⟨i, h⟩)) else a

/-- `mixer->ui_vmix_controls->ui_prev = ctrl` etc. (lines 254, 259). -/
def setUiPrev (a : Array Control) (i : Nat) (p : Option Nat) : Array Control :=
  updC a i (fun c => { c with uiPrev := p })

/-- `ctrl->needs_redraw = 1` / `= 0`. -/
def setNeedsRedraw (a : Array Control) (i : Nat) (b : Bool) : Array Control :=
  updC a i (fun c => { c with needsRedraw := b })

/-! ## load_mixers (lines 187-273)

The three ioctl transports used during load are oracles supplied as an
environment.  `none` models an ioctl returning -1. -/

/-- The part of `oss_mixerinfo` the program reads. -/
structure OssMixerInfo where
  enabled : Bool
  nrext : Nat
  deriving DecidableEq

/-- The transport environment of one run of `load_mixers`. -/
structure LoadEnv where
  nrmix : Option Nat
  mixerinfo : Nat → Option OssMixerInfo
  extinfo : Nat → Nat → Option CtrlMeta

/-- `struct mixer` (lines 44-54), minus the control array.  Because of
the aliasing on line 233 (`&mixers->controls[e]`, i.e. mixer 0's
array, instead of `&mixer->controls[e]`), every per-control write of
`load_mixers` lands in mixer 0's control array; the navigation-list
heads of **every** mixer are therefore indices into that one array,
and the model keeps a single global control array (`ctrls0` below). -/
structure GMixer where
  dev : Nat
  enabled : Bool
  nbControls : Nat
  uiDevControls : Option Nat
  uiVmixControls : Option Nat
  uiCurrControl : Option Nat
  deriving DecidableEq

/-- Result of `load_mixers`: the C return value, the mixer array, the
control array of mixer 0 (see `GMixer`), and whether `free_mixers` was
called during the run. -/
structure LoadResult where
  ret : Int
  mixers : Array GMixer
  ctrls0 : Array Control
  freed : Bool
  deriving DecidableEq

/-- One swap step of `reverse_control_list` (lines 178-183). -/
def swapLinks (c : Control) : Control :=
  { c with uiNext := c.uiPrev, uiPrev := c.uiNext }

/-- The loop of `reverse_control_list` (lines 178-184): walk the chain
from `curr`, swapping `ui_prev`/`ui_next` in every node and letting
`*plist` track the last node visited.  The C loop terminates because
the lists built by `load_mixers` are acyclic; the model makes this
explicit with fuel (the caller passes the array size, an upper bound
on the length of any acyclic chain of distinct indices). -/
def revLoop : Nat → Array Control → Option Nat → Option Nat → Array Control × Option Nat
  | _, a, none, plist => (a, plist)
  | 0, a, some _, plist => (a, plist)
  | fuel+1, a, some i, _ =>
      if h : i < a.size then
        let c := a.get ⟨i, h⟩
        revLoop fuel (a.set ⟨i, h⟩ (swapLinks c)) c.uiNext (some i)
      else (a, some i)

/-- `reverse_control_list` (lines 172-185). -/
def reverseControlList (a : Array Control) (plist : Option Nat) : Array Control × Option Nat :=
  revLoop a.size a plist plist

/-- The per-control loop of `load_mixers` (lines 232-264) for device
`m`, iterating `e` upward with `rem` controls remaining.  `a` is mixer
0's control array (see `GMixer` on the line-233 aliasing), `devH` and
`vmixH` the list heads of the *current* mixer `m`.

Per iteration, faithful to the source:
* `SNDCTL_MIX_EXTINFO` failure (line 239): `free_mixers(); break;` —
  the loop stops with the `failed` flag set, but **no** early return
  from `load_mixers` happens (the `break` only leaves this loop).
* The `info` struct is overwritten wholesale by the ioctl
  (type/min/max), while `is_vmix` is a separate field that is only
  ever **set** by line 245-246, never cleared — a control slot reused
  by a later device (aliasing) keeps a stale `is_vmix`, hence the
  `c.isVmix || meta.isVmix`.  `ui_prev`/`ui_next` are likewise not
  reset (lines 252-262 only overwrite `ui_next` when linking).
* Navigable controls (line 250-251) are pushed at the front of their
  group's list (lines 252-262): the old head's `ui_prev` is pointed at
  the new node, the node's `ui_next` at the old head. -/
def loadCtrlsAux (env : LoadEnv) (m : Nat) :
    Nat → Nat → Array Control → Option Nat → Option Nat →
    Array Control × Option Nat × Option Nat × Bool
  | 0, _, a, devH, vmixH => (a, devH, vmixH, false)
  | rem+1, e, a, devH, vmixH =>
    match env.extinfo m e with
    | none => (a, devH, vmixH, true)
    | some meta =>
      if h : e < a.size then
        let c0 := a.get ⟨e, h⟩
        let c1 : Control :=
          { c0 with dev := m, ctrl := e, ctype := meta.ctype,
                    minvalue := meta.minvalue, maxvalue := meta.maxvalue,
                    isVmix := c0.isVmix || meta.isVmix, needsRedraw := true }
        let a1 := a.set ⟨e, h⟩ c1
        if navigableKind meta.ctype then
          if c1.isVmix then
            let a2 := match vmixH with
                      | some hd => setUiPrev a1 hd (some e)
                      | none => a1
            let a3 := updC a2 e (fun c => { c with uiNext := vmixH })
            loadCtrlsAux env m rem (e+1) a3 devH (some e)
          else
            let a2 := match devH with
                      | some hd => setUiPrev a1 hd (some e)
                      | none => a1
            let a3 := updC a2 e (fun c => { c with uiNext := devH })
            loadCtrlsAux env m rem (e+1) a3 (some e) vmixH
        else
          loadCtrlsAux env m rem (e+1) a1 devH vmixH
      else (a, devH, vmixH, false)

/-- The per-device loop of `load_mixers` (lines 205-270), with `rem`
devices remaining; the device index `m` is the number of mixers
processed so far.  Faithful control flow:
* `SNDCTL_MIXERINFO` failure (line 211): `free_mixers(); return -1;`.
* `calloc` of the control array (line 218) is modelled only for
  mixer 0, whose array is the one every control write aliases to.
* A disabled device (line 225) skips its control loop entirely
  (`continue`), leaving its heads and `ui_curr_control` as the
  `calloc`-zeroed NULL.
* An enabled device runs the control loop; even when that loop hit an
  EXTINFO failure (`free_mixers(); break;`), lines 266-269 still run:
  both lists are reversed and `ui_curr_control` is set to the head of
  the device list, and the outer loop then continues with the next
  device — `load_mixers` finally returns 0. -/
def loadDevAux (env : LoadEnv) :
    Nat → Array GMixer → Array Control → Bool → LoadResult
  | 0, mixers, a, freed => ⟨0, mixers, a, freed⟩
  | rem+1, mixers, a, freed =>
    let m := mixers.size
    match env.mixerinfo m with
    | none => ⟨-1, mixers, a, true⟩
    | some info =>
      let a := if m = 0 then Array.mkArray info.nrext callocControl else a
      if info.enabled then
        let r := loadCtrlsAux env m info.nrext 0 a none none
        let (a1, devH) := reverseControlList r.1 r.2.1
        let (a2, vmixH) := reverseControlList a1 r.2.2.1
        let mx : GMixer :=
          ⟨m, info.enabled, info.nrext, devH, vmixH, devH⟩
        loadDevAux env rem (mixers.push mx) a2 (freed || r.2.2.2)
      else
        loadDevAux env rem
          (mixers.push ⟨m, info.enabled, info.nrext, none, none, none⟩) a freed

/-- `load_mixers` (lines 187-273).  `SNDCTL_MIX_NRMIX` failure or zero
mixers return -1 before anything is allocated. -/
def load_mixers (env : LoadEnv) : LoadResult :=
  match env.nrmix with
  | none => ⟨-1, #[], #[], false⟩
  | some 0 => ⟨-1, #[], #[], false⟩
  | some n => loadDevAux env n #[] #[] false

/-- The environment of a run with a single enabled device whose
per-control metadata is the list `metas` (control `e` yields
`metas[e]`). -/
def envOfMetas (metas : List CtrlMeta) : LoadEnv :=
  { nrmix := some 1,
    mixerinfo := fun m => if m = 0 then some ⟨true, metas.length⟩ else none,
    extinfo := fun _ e => metas.get? e }

/-! ## The current mixer's view

`main` sets `cur_mixer = &mixers[0]` (line 539) and never changes it;
every navigation and mutation operation reads `cur_mixer`'s fields and
the control nodes (which live in mixer 0's array). -/

/-- The state the interactive operations act on: `cur_mixer`'s control
array, list heads and current selection. -/
structure MixerView where
  controls : Array Control
  uiDevControls : Option Nat
  uiVmixControls : Option Nat
  uiCurrControl : Option Nat
  deriving DecidableEq

/-- Extract `cur_mixer = &mixers[0]`'s view from a load result. -/
def mixer0View (r : LoadResult) : MixerView :=
  match r.mixers[0]? with
  | some mx => ⟨r.ctrls0, mx.uiDevControls, mx.uiVmixControls, mx.uiCurrControl⟩
  | none => ⟨r.ctrls0, none, none, none⟩

/-! ## Navigation engine (lines 429-473)

Both operations dereference `cur_mixer->ui_curr_control` without a
null check; the model returns `none` for that null dereference.
`some st` with `st` unchanged models the C no-op path.  The
`draw_ui()` call at the end of each operation is the redraw pass,
modelled separately (`drawPass` below); it does not touch selection or
links. -/

/-- `move_to_next_control` (lines 429-449). -/
def moveToNextControl (st : MixerView) : Option MixerView :=
  match st.uiCurrControl with
  | none => none
  | some ci =>
    match st.controls[ci]? with
    | none => none
    | some curr =>
      let next : Option Nat :=
        match curr.uiNext with
        | some n => some n
        | none => if curr.isVmix then none else st.uiVmixControls
      match next with
      | none => some st
      | some ni =>
        let a := setNeedsRedraw st.controls ci true
        let a := setNeedsRedraw a ni true
        some { st with controls := a, uiCurrControl := some ni }

/-- The `while (prev->ui_next) prev = prev->ui_next;` walk of lines
462-463, starting at index `i`; `none` models a dangling pointer or an
exhausted fuel (the caller passes `size + 1`, enough for every acyclic
chain). -/
def walkToTail (a : Array Control) : Nat → Nat → Option Nat
  | 0, _ => none
  | fuel+1, i =>
    match a[i]? with
    | none => none
    | some c =>
      match c.uiNext with
      | none => some i
      | some j => walkToTail a fuel j

/-- `move_to_previous_control` (lines 451-473).  When `curr` has no
predecessor and is a vmix control, the code walks the device list from
its head (line 461-463); if that head is NULL the walk dereferences a
null pointer (`none`). -/
def moveToPreviousControl (st : MixerView) : Option MixerView :=
  match st.uiCurrControl with
  | none => none
  | some ci =>
    match st.controls[ci]? with
    | none => none
    | some curr =>
      let prevRes : Option (Option Nat) :=
        match curr.uiPrev with
        | some p => some (some p)
        | none =>
          if curr.isVmix then
            match st.uiDevControls with
            | none => none
            | some hd =>
              match walkToTail st.controls (st.controls.size + 1) hd with
              | none => none
              | some t => some (some t)
          else some none
      match prevRes with
      | none => none
      | some none => some st
      | some (some pi) =>
        let a := setNeedsRedraw st.controls ci true
        let a := setNeedsRedraw a pi true
        some { st with controls := a, uiCurrControl := some pi }

/-- `k` successive `move_to_next_control` invocations ('j' key). -/
def iterNext : Nat → MixerView → Option MixerView
  | 0, st => some st
  | k+1, st =>
    match moveToNextControl st with
    | none => none
    | some st' => iterNext k st'

/-- `k` successive `move_to_previous_control` invocations ('k' key). -/
def iterPrev : Nat → MixerView → Option MixerView
  | 0, st => some st
  | k+1, st =>
    match moveToPreviousControl st with
    | none => none
    | some st' => iterPrev k st'

/-! ## Volume mutation (lines 475-512)

Both handlers start with `ctrl = cur_mixer->ui_curr_control;` and pass
`ctrl` straight into `get_control_volume` / `set_control_volume`,
which dereference `&ctrl->info` — the outer `none` models that null
dereference.  The `SNDCTL_MIX_READ` transport of `get_control_volume`
is an oracle (`readRaw`); `none` models ioctl failure, upon which
`modify_volume` returns without writing (`some none`). -/

/-- `modify_volume` (lines 475-497): fetch, step by
`sign * (100 / gauge_width)`, clamp, write.  The check
`if (volume == -1) return;` of line 485-486 treats a decoded value of
-1 as the failure sentinel even when it is a legitimate decode result,
so that path (`some none`, no write) is taken both on ioctl failure
(`readRaw = none`) and on a decoded -1. -/
def modifyVolumeOp (st : MixerView) (readRaw : Option Nat) (sign : Int) :
    Option (Option WriteReq) :=
  match st.uiCurrControl with
  | none => none
  | some ci =>
    match st.controls[ci]? with
    | none => none
    | some c =>
      match readRaw with
      | none => some none
      | some raw =>
        let volume := decodeVolume c.ctype c.minvalue c.maxvalue raw
        if volume = -1 then some none
        else
          some (some (setControlVolumeReq c.ctype c.minvalue c.maxvalue
            (clampVolume (volume + volumeStep sign))))

/-- `set_volume` (lines 499-512): clamp the absolute percentage, write. -/
def setVolumeOp (st : MixerView) (volume : Int) : Option WriteReq :=
  match st.uiCurrControl with
  | none => none
  | some ci =>
    match st.controls[ci]? with
    | none => none
    | some c =>
      some (setControlVolumeReq c.ctype c.minvalue c.maxvalue (clampVolume volume))

/-! ## Redraw scheduler (lines 327-427) -/

/-- Outcome of one `draw_control` call: the updated control, whether
the volume transport was invoked, and the C return value. -/
structure DrawOutcome where
  ctrl : Control
  fetched : Bool
  ret : Int
  deriving DecidableEq

/-- `draw_control` (lines 327-388): return immediately when the dirty
bit is clear (line 339-340); otherwise fetch the volume through the
transport (`readRaw` oracle; `none` models the ioctl failing, i.e.
`get_control_volume` returning -1), and on failure return -1 *without*
clearing the dirty bit (lines 352-354); on success render and clear
the bit (line 386).  (The vmix label lookup of lines 343-350 only
affects the displayed label — its failure is reported and drawing
continues — and is not modelled.) -/
def drawControl (c : Control) (readRaw : Option Nat) : DrawOutcome :=
  if !c.needsRedraw then ⟨c, false, 0⟩
  else
    match readRaw with
    | none => ⟨c, true, -1⟩
    | some _ => ⟨{ c with needsRedraw := false }, true, 0⟩

/-- The draw pass of `draw_ui` (lines 390-427) over the controls listed
in `order` (the device list followed by the vmix list), with the
volume transport as an oracle per control index.  Returns the updated
array together with the indices that were fetched through the
transport.  A failed `draw_control` does not stop the pass (its return
value only affects the row position, lines 409 and 418). -/
def drawPass (fetch : Nat → Option Nat) : Array Control → List Nat → Array Control × List Nat
  | a, [] => (a, [])
  | a, i :: rest =>
    match a[i]? with
    | none => drawPass fetch a rest
    | some c =>
      let o := drawControl c (fetch i)
      let r := drawPass fetch (updC a i (fun _ => o.ctrl)) rest
      (r.1, (if o.fetched then [i] else []) ++ r.2)

/-! ## The poll loop's dirty-marking step (lines 549, 569-571)

`main` declares `modify_counter` and initializes it to -1 (line 549)
but never reads or updates it afterwards; no generation counter is
fetched anywhere in the loop.  Each iteration unconditionally runs

    for (int c = 0; c < cur_mixer->nb_controls; c++)
        cur_mixer->controls[c].needs_redraw = 1;

marking every control of the current device dirty.  The model keeps
one control array per device (`cur_mixer->controls`), as the intact
data model has it. -/

/-- A device as seen by the poll loop: its stored (never-consulted)
`modify_counter` and its control array. -/
structure PollMixer where
  modifyCounter : Int
  controls : Array Control
  deriving DecidableEq

/-- The marking step of one poll-loop iteration (lines 569-571):
set `needs_redraw` on every control of device `cur`. -/
def pollIterMark (ms : Array PollMixer) (cur : Nat) : Array PollMixer :=
  if h : cur < ms.size then
    let m := ms.get ⟨cur, h⟩
    ms.set ⟨cur, h⟩
      { m with controls := m.controls.map (fun c => { c with needsRedraw := true }) }
  else ms

/-! ## Spec-side index lists

The ascending lists of navigable control indices of a device, by
group; used only to *state* the navigation and invariant claims. -/

/-- Whether the control at index `e` of `metas` is a navigable
device-group control. -/
def isDevCtrl (metas : List CtrlMeta) (e : Nat) : Bool :=
  match metas.get? e with
  | some meta => navigableKind meta.ctype && !meta.isVmix
  | none => false

/-- Whether the control at index `e` of `metas` is a navigable
vmix-group control. -/
def isVmixCtrl (metas : List CtrlMeta) (e : Nat) : Bool :=
  match metas.get? e with
  | some meta => navigableKind meta.ctype && meta.isVmix
  | none => false

/-- Ascending indices of the navigable device-group controls among the
first `e` controls. -/
def devIdxsBelow (metas : List CtrlMeta) (e : Nat) : List Nat :=
  (List.range e).filter (isDevCtrl metas)

/-- Ascending indices of the navigable vmix-group controls among the
first `e` controls. -/
def vmixIdxsBelow (metas : List CtrlMeta) (e : Nat) : List Nat :=
  (List.range e).filter (isVmixCtrl metas)

/-- Ascending indices of all navigable device-group controls. -/
def devIdxs (metas : List CtrlMeta) : List Nat := devIdxsBelow metas metas.length

/-- Ascending indices of all navigable vmix-group controls. -/
def vmixIdxs (metas : List CtrlMeta) : List Nat := vmixIdxsBelow metas metas.length

/-! ## Array access lemmas -/

theorem getElem?_some_lt {a : Array Control} {i : Nat} {c : Control}
    (h : a[i]? = some c) : i < a.size := by
  simp only [getElem?_def] at h
  split at h
  · assumption
  · exact Option.noConfusion h

theorem get_of_getElem? {a : Array Control} {i : Nat} {c : Control}
    (h : a[i]? = some c) (hlt : i < a.size) : a.get ⟨i, hlt⟩ = c := by
  rw [Array.get_eq_getElem]
  rw [Array.getElem?_eq_getElem hlt] at h
  exact Option.some_inj.mp h

theorem getElem?_set_self {a : Array Control} {i : Nat} (h : i < a.size)
    (v : Control) (j : Nat) :
    (a.set ⟨i, h⟩ v)[j]? = if i = j then some v else a[j]? :=
  Array.get?_set a ⟨i, h⟩ j v

theorem size_updC (a : Array Control) (i : Nat) (f : Control → Control) :
    (updC a i f).size = a.size := by
  unfold updC
  split
  · exact Array.size_set a _ _
  · rfl

theorem getElem?_updC (a : Array Control) (i : Nat) (f : Control → Control)
    (j : Nat) :
    (updC a i f)[j]? = if i = j then (a[j]?).map f else a[j]? := by
  unfold updC
  split
  case isTrue h =>
    rw [getElem?_set_self h]
    by_cases hij : i = j
    · subst hij
      simp [Array.getElem?_eq_getElem h, Array.get_eq_getElem]
    · simp [hij]
  case isFalse h =>
    by_cases hij : i = j
    · subst hij
      have : a[i]? = none := by
        simp only [getElem?_def]
        split
        · exact absurd (by assumption) h
        · rfl
      simp [this]
    · simp [hij]

/-! ## Doubly-linked chain predicates

`dseg a p h l q` : starting at the pointer `h`, the indices in `l`
form a forward chain through `ui_next`, each node's `ui_prev` pointing
at the previous node (with `p` entering the segment), and the last
node's `ui_next` equal to `q`; the empty segment means `h = q`.
`dsegR` is the mirror image, walking `ui_prev` with `ui_next` as the
back-link. -/

def dseg (a : Array Control) : Option Nat → Option Nat → List Nat → Option Nat → Prop
  | _, h, [], q => h = q
  | p, h, j :: l, q =>
      h = some j ∧ ∃ c, a[j]? = some c ∧ c.uiPrev = p ∧ dseg a (some j) c.uiNext l q

def dsegR (a : Array Control) : Option Nat → Option Nat → List Nat → Option Nat → Prop
  | _, h, [], p => h = p
  | q, h, j :: l, p =>
      h = some j ∧ ∃ c, a[j]? = some c ∧ c.uiNext = q ∧ dsegR a (some j) c.uiPrev l p

/-- The pointer at the exit of a segment `l` entered with back-pointer
`p`: the last node of `l`, or `p` itself when `l` is empty. -/
def lastPtr (l : List Nat) (p : Option Nat) : Option Nat :=
  match l.getLast? with
  | some t => some t
  | none => p

theorem lastPtr_nil (p : Option Nat) : lastPtr [] p = p := rfl

theorem lastPtr_cons (j : Nat) (t : List Nat) (p : Option Nat) :
    lastPtr (j :: t) p = lastPtr t (some j) := by
  cases t with
  | nil => simp [lastPtr]
  | cons x xs =>
    obtain ⟨v, hv⟩ := Option.isSome_iff_exists.mp
      (List.getLast?_isSome.mpr (by simp : (x :: xs) ≠ []))
    simp [lastPtr, List.getLast?_cons_cons, hv]

theorem dseg_congr {a a' : Array Control} :
    ∀ {l : List Nat} {p h q : Option Nat},
      (∀ j ∈ l, a'[j]? = a[j]?) → dseg a p h l q → dseg a' p h l q := by
  intro l
  induction l with
  | nil => intro p h q _ hs; exact hs
  | cons j t ih =>
    intro p h q heq hs
    obtain ⟨hh, c, hc, hp, hrest⟩ := hs
    exact ⟨hh, c, by rw [heq j (List.mem_cons_self j t)]; exact hc, hp,
      ih (fun i hi => heq i (List.mem_cons_of_mem j hi)) hrest⟩

theorem dseg_mem_getElem {a : Array Control} :
    ∀ {l : List Nat} {p h q : Option Nat},
      dseg a p h l q → ∀ j ∈ l, ∃ c, a[j]? = some c := by
  intro l
  induction l with
  | nil => intro p h q _ j hj; exact absurd hj (List.not_mem_nil j)
  | cons i t ih =>
    intro p h q hs j hj
    obtain ⟨hh, c, hc, hp, hrest⟩ := hs
    rcases List.mem_cons.mp hj with hji | hjt
    · exact ⟨c, hji ▸ hc⟩
    · exact ih hrest j hjt

theorem dseg_append {a : Array Control} :
    ∀ {l1 l2 : List Nat} {p h m q : Option Nat},
      dseg a p h l1 m → dseg a (lastPtr l1 p) m l2 q → dseg a p h (l1 ++ l2) q := by
  intro l1
  induction l1 with
  | nil =>
    intro l2 p h m q h1 h2
    rw [lastPtr_nil] at h2
    cases h1
    exact h2
  | cons j t ih =>
    intro l2 p h m q h1 h2
    obtain ⟨hh, c, hc, hp, hrest⟩ := h1
    rw [lastPtr_cons] at h2
    exact ⟨hh, c, hc, hp, ih hrest h2⟩

theorem dsegR_append {a : Array Control} :
    ∀ {l1 l2 : List Nat} {q h m p : Option Nat},
      dsegR a q h l1 m → dsegR a (lastPtr l1 q) m l2 p → dsegR a q h (l1 ++ l2) p := by
  intro l1
  induction l1 with
  | nil =>
    intro l2 q h m p h1 h2
    rw [lastPtr_nil] at h2
    cases h1
    exact h2
  | cons j t ih =>
    intro l2 q h m p h1 h2
    obtain ⟨hh, c, hc, hn, hrest⟩ := h1
    rw [lastPtr_cons] at h2
    exact ⟨hh, c, hc, hn, ih hrest h2⟩

/-- Reversing the direction of a chain: a forward segment read
backwards is a `dsegR` segment from its last node. -/
theorem dseg_reverse {a : Array Control} :
    ∀ {l : List Nat} {p h q : Option Nat},
      dseg a p h l q → l ≠ [] → dsegR a q l.getLast? l.reverse p := by
  intro l
  induction l with
  | nil => intro p h q _ hne; exact absurd rfl hne
  | cons j t ih =>
    intro p h q hs _
    obtain ⟨hh, c, hc, hp, hrest⟩ := hs
    cases t with
    | nil =>
      cases hrest
      exact ⟨List.getLast?_singleton j ▸ rfl, c, hc, rfl, hp⟩
    | cons y ys =>
      have hne : (y :: ys) ≠ ([] : List Nat) := by simp
      have hR := ih hrest hne
      have hlast : (j :: y :: ys).getLast? = (y :: ys).getLast? :=
        List.getLast?_cons_cons
      rw [hlast, List.reverse_cons]
      refine dsegR_append hR ?_
      have hLP : lastPtr (y :: ys).reverse q = some y := by
        unfold lastPtr
        rw [List.getLast?_reverse]
        rfl
      rw [hLP]
      refine ⟨rfl, c, hc, ?_, hp⟩
      obtain ⟨hh2, _⟩ := hrest
      exact hh2

/-- Transferring a backward chain through a link swap: in an array
where every node of `l` has had `ui_prev`/`ui_next` swapped, a `dsegR`
segment becomes a forward `dseg` segment. -/
theorem dsegR_swap {a a' : Array Control} :
    ∀ {l : List Nat} {q h p : Option Nat},
      dsegR a q h l p → (∀ j ∈ l, a'[j]? = (a[j]?).map swapLinks) →
      dseg a' q h l p := by
  intro l
  induction l with
  | nil => intro q h p hs _; exact hs
  | cons j t ih =>
    intro q h p hs heq
    obtain ⟨hh, c, hc, hn, hrest⟩ := hs
    refine ⟨hh, swapLinks c, ?_, ?_, ?_⟩
    · rw [heq j (List.mem_cons_self j t), hc]; rfl
    · simpa [swapLinks] using hn
    · have : (swapLinks c).uiNext = c.uiPrev := rfl
      rw [this]
      exact ih hrest (fun i hi => heq i (List.mem_cons_of_mem j hi))

/-! ## reverse_control_list specification -/

theorem revLoop_none (fuel : Nat) (a : Array Control) (h0 : Option Nat) :
    revLoop fuel a none h0 = (a, h0) := by
  cases fuel <;> rfl

/-- Effect of the reversal walk on an acyclic chain: every node of the
chain has its links swapped, everything else is untouched, and the new
head is the chain's last node (or the initial `*plist` for the empty
chain). -/
theorem revLoop_spec :
    ∀ (l : List Nat) (fuel : Nat) (a : Array Control) (p curr h0 : Option Nat),
      dseg a p curr l none → l.Nodup → l.length ≤ fuel →
      (∀ j, (revLoop fuel a curr h0).1[j]? =
          if j ∈ l then (a[j]?).map swapLinks else a[j]?)
      ∧ (revLoop fuel a curr h0).2 = (if l = [] then h0 else l.getLast?) := by
  intro l
  induction l with
  | nil =>
    intro fuel a p curr h0 hs _ _
    cases hs
    rw [revLoop_none]
    exact ⟨fun j => by simp, by simp⟩
  | cons j t ih =>
    intro fuel a p curr h0 hs hnd hfuel
    obtain ⟨hh, c, hc, hp, hrest⟩ := hs
    subst hh
    obtain ⟨f, rfl⟩ : ∃ f, fuel = f + 1 := by
      cases fuel with
      | zero => exact absurd hfuel (by simp)
      | succ f => exact ⟨f, rfl⟩
    have hlt : j < a.size := getElem?_some_lt hc
    have hget : a.get ⟨j, hlt⟩ = c := get_of_getElem? hc hlt
    have hred : revLoop (f + 1) a (some j) h0 =
        revLoop f (a.set ⟨j, hlt⟩ (swapLinks c)) c.uiNext (some j) := by
      show (if h : j < a.size then
              revLoop f (a.set ⟨j, h⟩ (swapLinks (a.get ⟨j, h⟩))) (a.get ⟨j, h⟩).uiNext (some j)
            else (a, some j)) = _
      rw [dif_pos hlt, hget]
    rw [hred]
    set a1 := a.set ⟨j, hlt⟩ (swapLinks c) with ha1
    have hjt : j ∉ t := (List.nodup_cons.mp hnd).1
    have ha1get : ∀ i, a1[i]? = if j = i then some (swapLinks c) else a[i]? :=
      fun i => getElem?_set_self hlt (swapLinks c) i
    have hrest1 : dseg a1 (some j) c.uiNext t none := by
      refine dseg_congr (fun i hi => ?_) hrest
      rw [ha1get i, if_neg (by rintro rfl; exact hjt hi)]
    have hih := ih f a1 (some j) c.uiNext (some j) hrest1 (List.nodup_cons.mp hnd).2
      (Nat.le_of_succ_le_succ hfuel)
    refine ⟨fun i => ?_, ?_⟩
    · rw [hih.1 i]
      by_cases hit : i ∈ t
      · rw [if_pos hit, if_pos (List.mem_cons_of_mem j hit),
          ha1get i, if_neg (by rintro rfl; exact hjt hit)]
      · by_cases hij : i = j
        · subst hij
          rw [if_neg hit, if_pos (List.mem_cons_self i t), ha1get i, if_pos rfl, hc]
          rfl
        · rw [if_neg hit, if_neg (by simp [hij, hit]), ha1get i,
            if_neg (by rintro rfl; exact hij rfl)]
    · rw [hih.2]
      cases t with
      | nil => simp
      | cons y ys => simp [List.getLast?_cons_cons]

/-- `reverse_control_list` on a well-formed chain: all links of the
chain's nodes swapped, other cells untouched, and the resulting head
chain is the reversed list. -/
theorem reverseControlList_spec {a : Array Control} {h : Option Nat} {l : List Nat}
    (hs : dseg a none h l none) (hnd : l.Nodup) (hlen : l.length ≤ a.size) :
    (∀ j, (reverseControlList a h).1[j]? =
        if j ∈ l then (a[j]?).map swapLinks else a[j]?)
    ∧ dseg (reverseControlList a h).1 none (reverseControlList a h).2 l.reverse none
    ∧ (reverseControlList a h).2 = (if l = [] then h else l.getLast?) := by
  have hspec := revLoop_spec l a.size a none h h hs hnd hlen
  cases l with
  | nil =>
    cases hs
    refine ⟨hspec.1, ?_, by simpa using hspec.2⟩
    have h2 := hspec.2
    rw [if_pos rfl] at h2
    unfold reverseControlList
    rw [h2]
    rfl
  | cons j t =>
    refine ⟨hspec.1, ?_, by simpa using hspec.2⟩
    have h2 := hspec.2
    rw [if_neg (by simp)] at h2
    have hR := dseg_reverse hs (by simp)
    unfold reverseControlList
    rw [h2]
    exact dsegR_swap hR (fun i hi => by
      rw [hspec.1 i, if_pos (List.mem_reverse.mp hi)])

/-! ## Facts about the spec-side index lists -/

theorem devIdxsBelow_succ (metas : List CtrlMeta) (e : Nat) :
    devIdxsBelow metas (e+1) =
      devIdxsBelow metas e ++ (if isDevCtrl metas e then [e] else []) := by
  unfold devIdxsBelow
  rw [List.range_succ, List.filter_append]
  congr 1
  by_cases hp : isDevCtrl metas e <;> simp [hp]

theorem vmixIdxsBelow_succ (metas : List CtrlMeta) (e : Nat) :
    vmixIdxsBelow metas (e+1) =
      vmixIdxsBelow metas e ++ (if isVmixCtrl metas e then [e] else []) := by
  unfold vmixIdxsBelow
  rw [List.range_succ, List.filter_append]
  congr 1
  by_cases hp : isVmixCtrl metas e <;> simp [hp]

theorem mem_devIdxsBelow_lt {metas : List CtrlMeta} {e j : Nat}
    (h : j ∈ devIdxsBelow metas e) : j < e :=
  List.mem_range.mp (List.mem_filter.mp h).1

theorem mem_vmixIdxsBelow_lt {metas : List CtrlMeta} {e j : Nat}
    (h : j ∈ vmixIdxsBelow metas e) : j < e :=
  List.mem_range.mp (List.mem_filter.mp h).1

theorem devIdxsBelow_nodup (metas : List CtrlMeta) (e : Nat) :
    (devIdxsBelow metas e).Nodup :=
  List.Nodup.filter _ (List.nodup_range e)

theorem vmixIdxsBelow_nodup (metas : List CtrlMeta) (e : Nat) :
    (vmixIdxsBelow metas e).Nodup :=
  List.Nodup.filter _ (List.nodup_range e)

theorem devIdxsBelow_length_le (metas : List CtrlMeta) (e : Nat) :
    (devIdxsBelow metas e).length ≤ e := by
  have := List.length_filter_le (isDevCtrl metas) (List.range e)
  simpa [devIdxsBelow] using this

theorem vmixIdxsBelow_length_le (metas : List CtrlMeta) (e : Nat) :
    (vmixIdxsBelow metas e).length ≤ e := by
  have := List.length_filter_le (isVmixCtrl metas) (List.range e)
  simpa [vmixIdxsBelow] using this

theorem dev_vmix_disjoint {metas : List CtrlMeta} {e e' j : Nat}
    (hd : j ∈ devIdxsBelow metas e) (hv : j ∈ vmixIdxsBelow metas e') : False := by
  have h1 : isDevCtrl metas j = true := (List.mem_filter.mp hd).2
  have h2 : isVmixCtrl metas j = true := (List.mem_filter.mp hv).2
  unfold isDevCtrl at h1
  unfold isVmixCtrl at h2
  cases hg : metas.get? j with
  | none => rw [hg] at h1; exact Bool.noConfusion h1
  | some meta =>
    rw [hg] at h1 h2
    have hb1 := (Bool.and_eq_true _ _).mp h1
    have hb2 := (Bool.and_eq_true _ _).mp h2
    rw [hb2.2] at hb1
    exact Bool.noConfusion hb1.2

theorem isDevCtrl_eq {metas : List CtrlMeta} {e : Nat} {meta : CtrlMeta}
    (hmeta : metas.get? e = some meta) :
    isDevCtrl metas e = (navigableKind meta.ctype && !meta.isVmix) := by
  unfold isDevCtrl
  rw [hmeta]

theorem isVmixCtrl_eq {metas : List CtrlMeta} {e : Nat} {meta : CtrlMeta}
    (hmeta : metas.get? e = some meta) :
    isVmixCtrl metas e = (navigableKind meta.ctype && meta.isVmix) := by
  unfold isVmixCtrl
  rw [hmeta]

/-! ## Front insertion into a navigation list (lines 252-262) -/

/-- The array after one front insertion (lines 252-256 / 257-261): the
old head `H`'s `ui_prev` is pointed at the new node `e`, whose
`ui_next` is pointed at `H`. -/
def frontInsertArr (a : Array Control) (H : Option Nat) (e : Nat) : Array Control :=
  let a2 := match H with
            | some hd => setUiPrev a hd (some e)
            | none => a
  updC a2 e (fun c => { c with uiNext := H })

/-- Effect of one front insertion: it extends the chain by `e` at the
front; cells outside `{e} ∪ L` are untouched, and no cell but `e`
changes its `is_vmix` flag. -/
theorem frontInsert_spec {a : Array Control} {H : Option Nat} {L : List Nat} {e : Nat}
    {c1 : Control}
    (hchain : dseg a none H L none) (hnd : L.Nodup) (hltL : ∀ j ∈ L, j < e)
    (hc1 : a[e]? = some c1) (hp : c1.uiPrev = none) :
    dseg (frontInsertArr a H e) none (some e) (e :: L) none
    ∧ (frontInsertArr a H e).size = a.size
    ∧ (∀ j, j ≠ e → j ∉ L → (frontInsertArr a H e)[j]? = a[j]?)
    ∧ (frontInsertArr a H e)[e]? = some { c1 with uiNext := H }
    ∧ (∀ j, j ≠ e →
        ((frontInsertArr a H e)[j]?).map Control.isVmix = (a[j]?).map Control.isVmix) := by
  cases H with
  | none =>
    have hL : L = [] := by
      cases L with
      | nil => rfl
      | cons x xs => exact Option.noConfusion hchain.1
    subst hL
    have hget : ∀ j, (frontInsertArr a none e)[j]? =
        if e = j then (a[j]?).map (fun c => { c with uiNext := none }) else a[j]? :=
      fun j => getElem?_updC a e _ j
    refine ⟨?_, size_updC _ _ _, ?_, ?_, ?_⟩
    · refine ⟨rfl, { c1 with uiNext := none }, ?_, hp, rfl⟩
      rw [hget, if_pos rfl, hc1]
      rfl
    · intro j hje _
      rw [hget, if_neg (fun h => hje h.symm)]
    · rw [hget, if_pos rfl, hc1]
      rfl
    · intro j hje
      rw [hget, if_neg (fun h => hje h.symm)]
  | some hd =>
    obtain ⟨rest, rfl⟩ : ∃ rest, L = hd :: rest := by
      cases L with
      | nil => exact Option.noConfusion hchain
      | cons x xs =>
        obtain ⟨hh, _⟩ := hchain
        exact ⟨xs, by rw [Option.some_inj.mp hh.symm]⟩
    obtain ⟨hh, chd, hchd, hchdp, hchdrest⟩ := hchain
    have hhd_lt : hd < e := hltL hd (List.mem_cons_self hd rest)
    have hhd_ne : hd ≠ e := Nat.ne_of_lt hhd_lt
    have hrest_hd : hd ∉ rest := (List.nodup_cons.mp hnd).1
    have ha2get : ∀ j, (setUiPrev a hd (some e))[j]? =
        if hd = j then some { chd with uiPrev := some e } else a[j]? := by
      intro j
      unfold setUiPrev
      rw [getElem?_updC]
      by_cases hj : hd = j
      · subst hj; rw [if_pos rfl, if_pos rfl, hchd]; rfl
      · rw [if_neg hj, if_neg hj]
    have ha3get : ∀ j, (frontInsertArr a (some hd) e)[j]? =
        if e = j then ((setUiPrev a hd (some e))[j]?).map (fun c => { c with uiNext := some hd })
        else (setUiPrev a hd (some e))[j]? :=
      fun j => getElem?_updC _ e _ j
    have hae : (setUiPrev a hd (some e))[e]? = some c1 := by
      rw [ha2get, if_neg hhd_ne]; exact hc1
    have hsize : (frontInsertArr a (some hd) e).size = a.size := by
      show (updC (setUiPrev a hd (some e)) e _).size = a.size
      rw [size_updC]
      unfold setUiPrev
      rw [size_updC]
    refine ⟨?_, hsize, ?_, ?_, ?_⟩
    · refine ⟨rfl, { c1 with uiNext := some hd }, ?_, hp, ?_⟩
      · rw [ha3get, if_pos rfl, hae]
        rfl
      · show dseg _ (some e) (some hd) (hd :: rest) none
        refine ⟨rfl, { chd with uiPrev := some e }, ?_, rfl, ?_⟩
        · rw [ha3get, if_neg (fun h => hhd_ne h.symm), ha2get, if_pos rfl]
        · show dseg _ (some hd) ({ chd with uiPrev := some e } : Control).uiNext rest none
          have huNext : ({ chd with uiPrev := some e } : Control).uiNext = chd.uiNext := rfl
          rw [huNext]
          refine dseg_congr (fun i hi => ?_) hchdrest
          have hie : i ≠ e := Nat.ne_of_lt (hltL i (List.mem_cons_of_mem hd hi))
          have hihd : hd ≠ i := by rintro rfl; exact hrest_hd hi
          rw [ha3get, if_neg (fun h => hie h.symm), ha2get, if_neg hihd]
    · intro j hje hjL
      rw [ha3get, if_neg (fun h => hje h.symm), ha2get,
        if_neg (by rintro rfl; exact hjL (List.mem_cons_self hd rest))]
    · rw [ha3get, if_pos rfl, hae]
      rfl
    · intro j hje
      rw [ha3get, if_neg (fun h => hje h.symm), ha2get]
      by_cases hj : hd = j
      · subst hj; rw [if_pos rfl, hchd]; rfl
      · rw [if_neg hj]

/-! ## The control-loop invariant of load_mixers -/

/-- State of the control loop of `load_mixers` (lines 232-264) for a
single enabled device after the first `e` controls have been
processed: cells `≥ e` still hold the `calloc` zero, the two list
heads chain exactly the navigable indices `< e` of each group in
front-insertion (descending) order, and every chained cell carries its
group's `is_vmix` flag. -/
structure LoadInv (metas : List CtrlMeta) (e : Nat) (a : Array Control)
    (devH vmixH : Option Nat) : Prop where
  size_eq : a.size = metas.length
  tail : ∀ j, e ≤ j → j < metas.length → a[j]? = some callocControl
  devChain : dseg a none devH (devIdxsBelow metas e).reverse none
  vmixChain : dseg a none vmixH (vmixIdxsBelow metas e).reverse none
  devFlag : ∀ j ∈ devIdxsBelow metas e, (a[j]?).map Control.isVmix = some false
  vmixFlag : ∀ j ∈ vmixIdxsBelow metas e, (a[j]?).map Control.isVmix = some true

/-- The per-control field update of lines 235-248: `info.dev` and
`info.ctrl` are set, the EXTINFO ioctl overwrites the `info` struct
(type and range), `is_vmix` is only ever *set* (line 245-246, never
cleared: a reused cell keeps a stale flag), and `needs_redraw` is set.
The links are not touched here. -/
def extUpdate (m e : Nat) (meta : CtrlMeta) (c0 : Control) : Control :=
  { c0 with dev := m, ctrl := e, ctype := meta.ctype,
            minvalue := meta.minvalue, maxvalue := meta.maxvalue,
            isVmix := c0.isVmix || meta.isVmix, needsRedraw := true }

/-- One unfolding of the control loop when the EXTINFO transport
succeeds and the index is in bounds. -/
theorem loadCtrlsAux_step (env : LoadEnv) (m rem e : Nat) (a : Array Control)
    (devH vmixH : Option Nat) {meta : CtrlMeta} (hx : env.extinfo m e = some meta)
    (h : e < a.size) :
    loadCtrlsAux env m (rem+1) e a devH vmixH =
      if navigableKind meta.ctype then
        if (extUpdate m e meta (a.get ⟨e, h⟩)).isVmix then
          loadCtrlsAux env m rem (e+1)
            (frontInsertArr (a.set ⟨e, h⟩ (extUpdate m e meta (a.get ⟨e, h⟩))) vmixH e)
            devH (some e)
        else
          loadCtrlsAux env m rem (e+1)
            (frontInsertArr (a.set ⟨e, h⟩ (extUpdate m e meta (a.get ⟨e, h⟩))) devH e)
            (some e) vmixH
      else
        loadCtrlsAux env m rem (e+1) (a.set ⟨e, h⟩ (extUpdate m e meta (a.get ⟨e, h⟩)))
          devH vmixH := by
  conv_lhs => rw [loadCtrlsAux]
  rw [hx]
  simp only [dif_pos h]
  rfl

theorem loadCtrls_inv (metas : List CtrlMeta) (m : Nat) :
    ∀ (rem e : Nat) (a : Array Control) (devH vmixH : Option Nat),
      e + rem = metas.length →
      LoadInv metas e a devH vmixH →
      LoadInv metas metas.length
          (loadCtrlsAux (envOfMetas metas) m rem e a devH vmixH).1
          (loadCtrlsAux (envOfMetas metas) m rem e a devH vmixH).2.1
          (loadCtrlsAux (envOfMetas metas) m rem e a devH vmixH).2.2.1
      ∧ (loadCtrlsAux (envOfMetas metas) m rem e a devH vmixH).2.2.2 = false := by
  intro rem
  induction rem with
  | zero =>
    intro e a devH vmixH he hinv
    have heq : e = metas.length := by omega
    subst heq
    exact ⟨hinv, rfl⟩
  | succ rem ih =>
    intro e a devH vmixH he hinv
    have helt : e < metas.length := by omega
    have hx : (envOfMetas metas).extinfo m e = some (metas.get ⟨e, helt⟩) := by
      show metas.get? e = _
      exact List.get?_eq_get helt
    set meta := metas.get ⟨e, helt⟩ with hmeta
    have hsz : e < a.size := by rw [hinv.size_eq]; exact helt
    rw [loadCtrlsAux_step (envOfMetas metas) m rem e a devH vmixH hx hsz]
    have hcalloc : a[e]? = some callocControl := hinv.tail e (Nat.le_refl e) helt
    have hc0 : a.get ⟨e, hsz⟩ = callocControl := get_of_getElem? hcalloc hsz
    rw [hc0]
    set c1 : Control := extUpdate m e meta callocControl with hc1def
    have hc1vmix : c1.isVmix = meta.isVmix := by
      rw [hc1def]
      show (callocControl.isVmix || meta.isVmix) = meta.isVmix
      rw [show callocControl.isVmix = false from rfl, Bool.false_or]
    have hc1prev : c1.uiPrev = none := by rw [hc1def]; rfl
    set a1 := a.set ⟨e, hsz⟩ c1 with ha1def
    have ha1 : ∀ j, a1[j]? = if e = j then some c1 else a[j]? :=
      fun j => getElem?_set_self hsz c1 j
    have ha1size : a1.size = a.size := Array.size_set a _ _
    have hdev_lt : ∀ j ∈ (devIdxsBelow metas e).reverse, j < e := fun j hj =>
      mem_devIdxsBelow_lt (List.mem_reverse.mp hj)
    have hvmix_lt : ∀ j ∈ (vmixIdxsBelow metas e).reverse, j < e := fun j hj =>
      mem_vmixIdxsBelow_lt (List.mem_reverse.mp hj)
    have hdevChain1 : dseg a1 none devH (devIdxsBelow metas e).reverse none := by
      refine dseg_congr (fun j hj => ?_) hinv.devChain
      rw [ha1 j, if_neg (Nat.ne_of_gt (hdev_lt j hj))]
    have hvmixChain1 : dseg a1 none vmixH (vmixIdxsBelow metas e).reverse none := by
      refine dseg_congr (fun j hj => ?_) hinv.vmixChain
      rw [ha1 j, if_neg (Nat.ne_of_gt (hvmix_lt j hj))]
    cases hnav : navigableKind meta.ctype with
    | false =>
      rw [if_neg (by exact Bool.false_ne_true)]
      have hdc : isDevCtrl metas e = false := by
        rw [isDevCtrl_eq (List.get?_eq_get helt), ← hmeta, hnav, Bool.false_and]
      have hvc : isVmixCtrl metas e = false := by
        rw [isVmixCtrl_eq (List.get?_eq_get helt), ← hmeta, hnav, Bool.false_and]
      have hdl : devIdxsBelow metas (e+1) = devIdxsBelow metas e := by
        rw [devIdxsBelow_succ, hdc]
        simp
      have hvl : vmixIdxsBelow metas (e+1) = vmixIdxsBelow metas e := by
        rw [vmixIdxsBelow_succ, hvc]
        simp
      refine ih (e+1) a1 devH vmixH (by omega) ?_
      refine ⟨ha1size.trans hinv.size_eq, ?_, ?_, ?_, ?_, ?_⟩
      · intro j hj hjlen
        rw [ha1 j, if_neg (by omega)]
        exact hinv.tail j (by omega) hjlen
      · rw [hdl]; exact hdevChain1
      · rw [hvl]; exact hvmixChain1
      · intro j hj
        rw [hdl] at hj
        rw [ha1 j, if_neg (Nat.ne_of_gt (mem_devIdxsBelow_lt hj))]
        exact hinv.devFlag j hj
      · intro j hj
        rw [hvl] at hj
        rw [ha1 j, if_neg (Nat.ne_of_gt (mem_vmixIdxsBelow_lt hj))]
        exact hinv.vmixFlag j hj
    | true =>
      rw [if_pos (Eq.refl true)]
      have ha1e : a1[e]? = some c1 := by rw [ha1 e, if_pos rfl]
      cases hiv : meta.isVmix with
      | true =>
        rw [if_pos (by rw [hc1vmix, hiv])]
        have hvc : isVmixCtrl metas e = true := by
          rw [isVmixCtrl_eq (List.get?_eq_get helt), ← hmeta, hnav, hiv]
          rfl
        have hdc : isDevCtrl metas e = false := by
          rw [isDevCtrl_eq (List.get?_eq_get helt), ← hmeta, hiv]
          simp
        have hdl : devIdxsBelow metas (e+1) = devIdxsBelow metas e := by
          rw [devIdxsBelow_succ, hdc]
          simp
        have hvl : vmixIdxsBelow metas (e+1) = vmixIdxsBelow metas e ++ [e] := by
          rw [vmixIdxsBelow_succ, hvc]
          simp
        obtain ⟨hchain', hsize', huntouched, hself, hflags⟩ :=
          frontInsert_spec hvmixChain1
            (List.nodup_reverse.mpr (vmixIdxsBelow_nodup metas e)) hvmix_lt ha1e hc1prev
        refine ih (e+1) (frontInsertArr a1 vmixH e) devH (some e) (by omega) ?_
        refine ⟨(hsize'.trans ha1size).trans hinv.size_eq, ?_, ?_, ?_, ?_, ?_⟩
        · intro j hj hjlen
          rw [huntouched j (by omega) (fun hmem => by
            have := hvmix_lt j hmem; omega), ha1 j, if_neg (by omega)]
          exact hinv.tail j (by omega) hjlen
        · rw [hdl]
          refine dseg_congr (fun j hj => ?_) hdevChain1
          refine huntouched j (Nat.ne_of_lt (hdev_lt j hj)) (fun hmem => ?_)
          exact dev_vmix_disjoint (List.mem_reverse.mp hj) (List.mem_reverse.mp hmem)
        · rw [hvl, List.reverse_append]
          exact hchain'
        · intro j hj
          rw [hdl] at hj
          have hje : j ≠ e := Nat.ne_of_lt (mem_devIdxsBelow_lt hj)
          rw [hflags j hje, ha1 j, if_neg (fun hh => hje hh.symm)]
          exact hinv.devFlag j hj
        · intro j hj
          rw [hvl] at hj
          rcases List.mem_append.mp hj with hjold | hjnew
          · have hje : j ≠ e := Nat.ne_of_lt (mem_vmixIdxsBelow_lt hjold)
            rw [hflags j hje, ha1 j, if_neg (fun hh => hje hh.symm)]
            exact hinv.vmixFlag j hjold
          · have hje : j = e := List.mem_singleton.mp hjnew
            subst hje
            rw [hself]
            show some ({ c1 with uiNext := vmixH } : Control).isVmix = some true
            have hproj : ({ c1 with uiNext := vmixH } : Control).isVmix = c1.isVmix := rfl
            rw [hproj, hc1vmix, hiv]
      | false =>
        rw [if_neg (by rw [hc1vmix, hiv]; exact Bool.false_ne_true)]
        have hdc : isDevCtrl metas e = true := by
          rw [isDevCtrl_eq (List.get?_eq_get helt), ← hmeta, hnav, hiv]
          rfl
        have hvc : isVmixCtrl metas e = false := by
          rw [isVmixCtrl_eq (List.get?_eq_get helt), ← hmeta, hiv]
          simp
        have hvl : vmixIdxsBelow metas (e+1) = vmixIdxsBelow metas e := by
          rw [vmixIdxsBelow_succ, hvc]
          simp
        have hdl : devIdxsBelow metas (e+1) = devIdxsBelow metas e ++ [e] := by
          rw [devIdxsBelow_succ, hdc]
          simp
        obtain ⟨hchain', hsize', huntouched, hself, hflags⟩ :=
          frontInsert_spec hdevChain1
            (List.nodup_reverse.mpr (devIdxsBelow_nodup metas e)) hdev_lt ha1e hc1prev
        refine ih (e+1) (frontInsertArr a1 devH e) (some e) vmixH (by omega) ?_
        refine ⟨(hsize'.trans ha1size).trans hinv.size_eq, ?_, ?_, ?_, ?_, ?_⟩
        · intro j hj hjlen
          rw [huntouched j (by omega) (fun hmem => by
            have := hdev_lt j hmem; omega), ha1 j, if_neg (by omega)]
          exact hinv.tail j (by omega) hjlen
        · rw [hdl, List.reverse_append]
          exact hchain'
        · rw [hvl]
          refine dseg_congr (fun j hj => ?_) hvmixChain1
          refine huntouched j (Nat.ne_of_lt (hvmix_lt j hj)) (fun hmem => ?_)
          exact dev_vmix_disjoint (List.mem_reverse.mp hmem) (List.mem_reverse.mp hj)
        · intro j hj
          rw [hdl] at hj
          rcases List.mem_append.mp hj with hjold | hjnew
          · have hje : j ≠ e := Nat.ne_of_lt (mem_devIdxsBelow_lt hjold)
            rw [hflags j hje, ha1 j, if_neg (fun hh => hje hh.symm)]
            exact hinv.devFlag j hjold
          · have hje : j = e := List.mem_singleton.mp hjnew
            subst hje
            rw [hself]
            show some ({ c1 with uiNext := devH } : Control).isVmix = some false
            have hproj : ({ c1 with uiNext := devH } : Control).isVmix = c1.isVmix := rfl
            rw [hproj, hc1vmix, hiv]
        · intro j hj
          rw [hvl] at hj
          have hje : j ≠ e := Nat.ne_of_lt (mem_vmixIdxsBelow_lt hj)
          rw [hflags j hje, ha1 j, if_neg (fun hh => hje hh.symm)]
          exact hinv.vmixFlag j hj

/-! ## Characterization of a single-device load -/

theorem revLoop_size :
    ∀ (fuel : Nat) (a : Array Control) (curr h0 : Option Nat),
      (revLoop fuel a curr h0).1.size = a.size := by
  intro fuel
  induction fuel with
  | zero => intro a curr h0; cases curr <;> rfl
  | succ fuel ih =>
    intro a curr h0
    cases curr with
    | none => rfl
    | some i =>
      show (if h : i < a.size then
              revLoop fuel (a.set ⟨i, h⟩ (swapLinks (a.get ⟨i, h⟩))) (a.get ⟨i, h⟩).uiNext (some i)
            else (a, some i)).1.size = a.size
      split
      case isTrue h => rw [ih]; exact Array.size_set a _ _
      case isFalse h => rfl

theorem reverseControlList_size (a : Array Control) (h : Option Nat) :
    (reverseControlList a h).1.size = a.size :=
  revLoop_size a.size a h h

/-- What the rest of the claims need to know about `cur_mixer`'s view
after a successful single-device load: the two heads chain exactly
the navigable indices of each group in ascending order, the current
selection is the device-list head, and every chained node carries its
group's `is_vmix` flag. -/
structure Mixer0Char (metas : List CtrlMeta) (v : MixerView) : Prop where
  size_eq : v.controls.size = metas.length
  devChain : dseg v.controls none v.uiDevControls (devIdxs metas) none
  vmixChain : dseg v.controls none v.uiVmixControls (vmixIdxs metas) none
  curr_eq : v.uiCurrControl = v.uiDevControls
  devFlag : ∀ j ∈ devIdxs metas, (v.controls[j]?).map Control.isVmix = some false
  vmixFlag : ∀ j ∈ vmixIdxs metas, (v.controls[j]?).map Control.isVmix = some true

theorem load_single_char (metas : List CtrlMeta) :
    (load_mixers (envOfMetas metas)).ret = 0
    ∧ (load_mixers (envOfMetas metas)).freed = false
    ∧ Mixer0Char metas (mixer0View (load_mixers (envOfMetas metas))) := by
  have hinv0 : LoadInv metas 0 (Array.mkArray metas.length callocControl) none none := by
    refine ⟨Array.size_mkArray _ _, ?_, ?_, ?_, ?_, ?_⟩
    · intro j _ hj
      rw [Array.getElem?_mkArray, if_pos hj]
    · show dseg _ none none ((List.range 0).filter _).reverse none
      rfl
    · show dseg _ none none ((List.range 0).filter _).reverse none
      rfl
    · intro j hj
      exact absurd (mem_devIdxsBelow_lt hj) (Nat.not_lt_zero j)
    · intro j hj
      exact absurd (mem_vmixIdxsBelow_lt hj) (Nat.not_lt_zero j)
  obtain ⟨hinv, hfail⟩ := loadCtrls_inv metas 0 metas.length 0
    (Array.mkArray metas.length callocControl) none none (Nat.zero_add _) hinv0
  set r := loadCtrlsAux (envOfMetas metas) 0 metas.length 0
    (Array.mkArray metas.length callocControl) none none with hr
  set p1 := reverseControlList r.1 r.2.1 with hp1
  set p2 := reverseControlList p1.1 r.2.2.1 with hp2
  have hload : load_mixers (envOfMetas metas) =
      ⟨0, #[⟨0, true, metas.length, p1.2, p2.2, p1.2⟩], p2.1, false || r.2.2.2⟩ := rfl
  have hview : mixer0View (load_mixers (envOfMetas metas)) =
      ⟨p2.1, p1.2, p2.2, p1.2⟩ := by
    rw [hload]
    rfl
  -- the two reversal passes
  have hdevnd : ((devIdxs metas).reverse).Nodup :=
    List.nodup_reverse.mpr (devIdxsBelow_nodup metas metas.length)
  have hvmixnd : ((vmixIdxs metas).reverse).Nodup :=
    List.nodup_reverse.mpr (vmixIdxsBelow_nodup metas metas.length)
  have hdevlen : ((devIdxs metas).reverse).length ≤ r.1.size := by
    rw [List.length_reverse, hinv.size_eq]
    exact devIdxsBelow_length_le metas metas.length
  have hvmixlen : ((vmixIdxs metas).reverse).length ≤ p1.1.size := by
    rw [List.length_reverse, reverseControlList_size, hinv.size_eq]
    exact vmixIdxsBelow_length_le metas metas.length
  have hdevchain : dseg r.1 none r.2.1 ((devIdxs metas).reverse) none := hinv.devChain
  obtain ⟨hpt1, hchain1, _⟩ := reverseControlList_spec hdevchain hdevnd hdevlen
  rw [List.reverse_reverse] at hchain1
  have hvmixchain1 : dseg p1.1 none r.2.2.1 ((vmixIdxs metas).reverse) none := by
    refine dseg_congr (fun j hj => ?_) hinv.vmixChain
    rw [hpt1 j, if_neg (show j ∉ (devIdxs metas).reverse from fun hmem =>
      dev_vmix_disjoint (List.mem_reverse.mp hmem) (List.mem_reverse.mp hj))]
  obtain ⟨hpt2, hchain2, _⟩ := reverseControlList_spec hvmixchain1 hvmixnd hvmixlen
  rw [List.reverse_reverse] at hchain2
  have hdevchain2 : dseg p2.1 none p1.2 (devIdxs metas) none := by
    refine dseg_congr (fun j hj => ?_) hchain1
    rw [hpt2 j, if_neg (show j ∉ (vmixIdxs metas).reverse from fun hmem =>
      dev_vmix_disjoint hj (List.mem_reverse.mp hmem))]
  refine ⟨by rw [hload], by rw [hload]; show (false || r.2.2.2) = false; rw [hfail]; rfl, ?_⟩
  rw [hview]
  refine ⟨?_, hdevchain2, hchain2, rfl, ?_, ?_⟩
  · show p2.1.size = metas.length
    rw [hp2, reverseControlList_size, hp1, reverseControlList_size, hinv.size_eq]
  · intro j hj
    show (p2.1[j]?).map Control.isVmix = some false
    rw [hpt2 j, if_neg (show j ∉ (vmixIdxs metas).reverse from fun hmem =>
      dev_vmix_disjoint hj (List.mem_reverse.mp hmem)),
      hpt1 j, if_pos (List.mem_reverse.mpr hj), Option.map_map]
    have : Control.isVmix ∘ swapLinks = Control.isVmix := rfl
    rw [this]
    exact hinv.devFlag j hj
  · intro j hj
    show (p2.1[j]?).map Control.isVmix = some true
    rw [hpt2 j, if_pos (List.mem_reverse.mpr hj),
      hpt1 j, if_neg (show j ∉ (devIdxs metas).reverse from fun hmem =>
        dev_vmix_disjoint (List.mem_reverse.mp hmem) hj),
      Option.map_map]
    have : Control.isVmix ∘ swapLinks = Control.isVmix := rfl
    rw [this]
    exact hinv.vmixFlag j hj

/-! ## Navigation: chain stability under dirty-marking -/

theorem getElem?_setNeedsRedraw (a : Array Control) (i : Nat) (b : Bool) (j : Nat) :
    (setNeedsRedraw a i b)[j]? =
      if i = j then (a[j]?).map (fun c => { c with needsRedraw := b }) else a[j]? :=
  getElem?_updC a i _ j

theorem dseg_setNeedsRedraw {a : Array Control} {i : Nat} {b : Bool} :
    ∀ {l : List Nat} {p h q : Option Nat},
      dseg a p h l q → dseg (setNeedsRedraw a i b) p h l q := by
  intro l
  induction l with
  | nil => intro p h q hs; exact hs
  | cons j t ih =>
    intro p h q hs
    obtain ⟨hh, c, hc, hp, hrest⟩ := hs
    by_cases hij : i = j
    · subst hij
      refine ⟨hh, { c with needsRedraw := b }, ?_, hp, ih hrest⟩
      rw [getElem?_setNeedsRedraw, if_pos rfl, hc]
      rfl
    · exact ⟨hh, c, by rw [getElem?_setNeedsRedraw, if_neg hij]; exact hc, hp, ih hrest⟩

theorem dsegR_setNeedsRedraw {a : Array Control} {i : Nat} {b : Bool} :
    ∀ {l : List Nat} {q h p : Option Nat},
      dsegR a q h l p → dsegR (setNeedsRedraw a i b) q h l p := by
  intro l
  induction l with
  | nil => intro q h p hs; exact hs
  | cons j t ih =>
    intro q h p hs
    obtain ⟨hh, c, hc, hn, hrest⟩ := hs
    by_cases hij : i = j
    · subst hij
      refine ⟨hh, { c with needsRedraw := b }, ?_, hn, ih hrest⟩
      rw [getElem?_setNeedsRedraw, if_pos rfl, hc]
      rfl
    · exact ⟨hh, c, by rw [getElem?_setNeedsRedraw, if_neg hij]; exact hc, hn, ih hrest⟩

/-- The per-node group flags the navigation logic branches on. -/
def FlagsAre (a : Array Control) (l : List Nat) (b : Bool) : Prop :=
  ∀ j ∈ l, (a[j]?).map Control.isVmix = some b

theorem FlagsAre_setNeedsRedraw {a : Array Control} {i : Nat} {bb : Bool}
    {l : List Nat} {b : Bool} (hf : FlagsAre a l b) :
    FlagsAre (setNeedsRedraw a i bb) l b := by
  intro j hj
  rw [getElem?_setNeedsRedraw]
  by_cases hij : i = j
  · rw [if_pos hij, Option.map_map]
    have hcomp : Control.isVmix ∘ (fun c => { c with needsRedraw := bb }) = Control.isVmix := rfl
    rw [hcomp]
    exact hf j hj
  · rw [if_neg hij]
    exact hf j hj

/-! ## A generic bounded-iteration lemma for the two navigation keys -/

/-- `k` repetitions of a navigation operation. -/
def iterOp (step : MixerView → Option MixerView) : Nat → MixerView → Option MixerView
  | 0, v => some v
  | k+1, v =>
    match step v with
    | none => none
    | some v' => iterOp step k v'

theorem iterNext_eq_iterOp : ∀ (k : Nat) (v : MixerView),
    iterNext k v = iterOp moveToNextControl k v := by
  intro k
  induction k with
  | zero => intro v; rfl
  | succ k ih =>
    intro v
    unfold iterNext iterOp
    cases moveToNextControl v with
    | none => rfl
    | some v' => exact ih v'

theorem iterPrev_eq_iterOp : ∀ (k : Nat) (v : MixerView),
    iterPrev k v = iterOp moveToPreviousControl k v := by
  intro k
  induction k with
  | zero => intro v; rfl
  | succ k ih =>
    intro v
    unfold iterPrev iterOp
    cases moveToPreviousControl v with
    | none => rfl
    | some v' => exact ih v'

/-- Running a navigation key `k` times from a state whose residue
invariant holds: the first `rest.length` states have the successive
elements of `rest` selected, and the selection then stays on the last
element forever. -/
theorem navRun (step : MixerView → Option MixerView)
    (Inv : MixerView → List Nat → Prop)
    (hlast : ∀ v x, Inv v [x] → step v = some v)
    (hcons : ∀ v x y r2, Inv v (x :: y :: r2) →
      ∃ v', step v = some v' ∧ Inv v' (y :: r2))
    (hcurr : ∀ v rest, Inv v rest → rest ≠ [] ∧ v.uiCurrControl = rest.head?) :
    ∀ (k : Nat) (v : MixerView) (rest : List Nat), Inv v rest →
      (iterOp step k v).map MixerView.uiCurrControl =
        some (some (rest.getD (min k (rest.length - 1)) 0)) := by
  intro k
  induction k with
  | zero =>
    intro v rest hinv
    obtain ⟨hne, hhead⟩ := hcurr v rest hinv
    obtain ⟨x, rest2, rfl⟩ := List.exists_cons_of_ne_nil hne
    show some v.uiCurrControl = some (some ((x :: rest2).getD (min 0 _) 0))
    rw [Nat.min_comm, Nat.min_zero]
    rw [hhead]
    rfl
  | succ k ih =>
    intro v rest hinv
    obtain ⟨hne, _⟩ := hcurr v rest hinv
    obtain ⟨x, rest2, rfl⟩ := List.exists_cons_of_ne_nil hne
    cases rest2 with
    | nil =>
      have hstep := hlast v x hinv
      show (match step v with
            | none => none
            | some v' => iterOp step k v').map MixerView.uiCurrControl = _
      rw [hstep]
      have := ih v [x] hinv
      simpa using this
    | cons y r2 =>
      obtain ⟨v', hstep, hinv'⟩ := hcons v x y r2 hinv
      show (match step v with
            | none => none
            | some v'' => iterOp step k v'').map MixerView.uiCurrControl = _
      rw [hstep]
      have hih := ih v' (y :: r2) hinv'
      rw [hih]
      have hlen : (x :: y :: r2).length - 1 = ((y :: r2).length - 1) + 1 := by
        simp
      rw [hlen, Nat.succ_min_succ]
      rfl

/-! ## Stepping move_to_next_control -/

/-- The successor computation of lines 436-440. -/
def nextTarget (v : MixerView) (c : Control) : Option Nat :=
  match c.uiNext with
  | some n => some n
  | none => if c.isVmix then none else v.uiVmixControls

theorem moveToNextControl_stay {v : MixerView} {x : Nat} {c : Control}
    (hcurr : v.uiCurrControl = some x) (hc : v.controls[x]? = some c)
    (hni : nextTarget v c = none) :
    moveToNextControl v = some v := by
  unfold moveToNextControl
  simp only [hcurr, hc]
  show (match nextTarget v c with
        | none => some v
        | some ni =>
          some { v with controls := setNeedsRedraw (setNeedsRedraw v.controls x true) ni true,
                        uiCurrControl := some ni }) = some v
  rw [hni]

theorem moveToNextControl_go {v : MixerView} {x ni : Nat} {c : Control}
    (hcurr : v.uiCurrControl = some x) (hc : v.controls[x]? = some c)
    (hni : nextTarget v c = some ni) :
    moveToNextControl v =
      some { v with controls := setNeedsRedraw (setNeedsRedraw v.controls x true) ni true,
                    uiCurrControl := some ni } := by
  unfold moveToNextControl
  simp only [hcurr, hc]
  show (match nextTarget v c with
        | none => some v
        | some ni =>
          some { v with controls := setNeedsRedraw (setNeedsRedraw v.controls x true) ni true,
                        uiCurrControl := some ni }) = _
  rw [hni]

/-- Residue invariant for forward navigation: `rest` is the list of
controls still to be visited, the current one first.  Either the
selection is still inside the device list (with the whole vmix list
ahead of it), or it is inside the vmix list. -/
def NavRestNext (v : MixerView) (rest : List Nat) : Prop :=
  (∃ d2 p vl, rest = d2 ++ vl ∧ d2 ≠ [] ∧ v.uiCurrControl = d2.head? ∧
     dseg v.controls p v.uiCurrControl d2 none ∧ FlagsAre v.controls d2 false ∧
     dseg v.controls none v.uiVmixControls vl none ∧ FlagsAre v.controls vl true)
  ∨ (rest ≠ [] ∧ v.uiCurrControl = rest.head? ∧
     (∃ p, dseg v.controls p v.uiCurrControl rest none) ∧ FlagsAre v.controls rest true)

theorem navRestNext_curr {v : MixerView} {rest : List Nat}
    (hinv : NavRestNext v rest) : rest ≠ [] ∧ v.uiCurrControl = rest.head? := by
  rcases hinv with ⟨d2, p, vl, heq, hne, hcurr, _⟩ | ⟨hne, hcurr, _⟩
  · subst heq
    refine ⟨?_, ?_⟩
    · cases d2 with
      | nil => exact absurd rfl hne
      | cons a t => simp
    · cases d2 with
      | nil => exact absurd rfl hne
      | cons a t => simpa using hcurr
  · exact ⟨hne, hcurr⟩

theorem moveNext_last {v : MixerView} {x : Nat}
    (hinv : NavRestNext v [x]) : moveToNextControl v = some v := by
  rcases hinv with ⟨d2, p, vl, heq, hne, hcurr, hchain, hdf, hvchain, _⟩ |
    ⟨_, hcurr, ⟨p, hchain⟩, hf⟩
  · -- device phase: d2 = [x] and vl = []
    obtain ⟨a1, t, rfl⟩ : ∃ a1 t, d2 = a1 :: t := by
      cases d2 with
      | nil => exact absurd rfl hne
      | cons a1 t => exact ⟨a1, t, rfl⟩
    rw [List.cons_append] at heq
    injection heq with h1 h2
    subst h1
    have ht : t = [] := (List.append_eq_nil.mp h2.symm).1
    have hvl : vl = [] := (List.append_eq_nil.mp h2.symm).2
    subst ht hvl
    have hcx : v.uiCurrControl = some x := by simpa using hcurr
    rw [hcx] at hchain
    obtain ⟨_, c, hc, _, hrest⟩ := hchain
    have hnext : c.uiNext = none := hrest
    have hflag : c.isVmix = false := by
      have := hdf x (List.mem_singleton_self x)
      rw [hc] at this
      exact Option.some_inj.mp this
    have hvh : v.uiVmixControls = none := hvchain
    refine moveToNextControl_stay hcx hc ?_
    unfold nextTarget
    rw [hnext, hflag, hvh]
    rfl
  · -- vmix phase: single remaining control
    have hcx : v.uiCurrControl = some x := by simpa using hcurr
    rw [hcx] at hchain
    obtain ⟨_, c, hc, _, hrest⟩ := hchain
    have hnext : c.uiNext = none := hrest
    have hflag : c.isVmix = true := by
      have := hf x (List.mem_singleton_self x)
      rw [hc] at this
      exact Option.some_inj.mp this
    refine moveToNextControl_stay hcx hc ?_
    unfold nextTarget
    rw [hnext, hflag]
    rfl

theorem moveNext_cons {v : MixerView} {x y : Nat} {r2 : List Nat}
    (hinv : NavRestNext v (x :: y :: r2)) :
    ∃ v', moveToNextControl v = some v' ∧ NavRestNext v' (y :: r2) := by
  rcases hinv with ⟨d2, p, vl, heq, hne, hcurr, hchain, hdf, hvchain, hvf⟩ |
    ⟨_, hcurr, ⟨p, hchain⟩, hf⟩
  · obtain ⟨a1, t, rfl⟩ : ∃ a1 t, d2 = a1 :: t := by
      cases d2 with
      | nil => exact absurd rfl hne
      | cons a1 t => exact ⟨a1, t, rfl⟩
    rw [List.cons_append] at heq
    injection heq with h1 h2
    subst h1
    have hcx : v.uiCurrControl = some x := by simpa using hcurr
    rw [hcx] at hchain
    obtain ⟨_, c, hc, hcp, hrest⟩ := hchain
    cases t with
    | nil =>
      -- end of the device list: fall through to the vmix head
      have hnext : c.uiNext = none := hrest
      have hflag : c.isVmix = false := by
        have := hdf x (List.mem_cons_self x [])
        rw [hc] at this
        exact Option.some_inj.mp this
      have hvleq : vl = y :: r2 := by simpa using h2.symm
      subst hvleq
      have hvh : v.uiVmixControls = some y := hvchain.1
      refine ⟨_, moveToNextControl_go hcx hc
        (by unfold nextTarget; rw [hnext, hflag, hvh]; rfl), ?_⟩
      right
      rw [hvh] at hvchain
      refine ⟨List.cons_ne_nil y r2, rfl, ⟨none, ?_⟩, ?_⟩
      · exact dseg_setNeedsRedraw (dseg_setNeedsRedraw hvchain)
      · exact FlagsAre_setNeedsRedraw (FlagsAre_setNeedsRedraw hvf)
    | cons y' t' =>
      -- successor within the device list
      rw [List.cons_append] at h2
      injection h2 with h3 h4
      subst h3
      have hnext : c.uiNext = some y := hrest.1
      refine ⟨_, moveToNextControl_go hcx hc
        (by unfold nextTarget; rw [hnext]), ?_⟩
      left
      rw [hnext] at hrest
      refine ⟨y :: t', some x, vl, by rw [h4, List.cons_append], List.cons_ne_nil y t', rfl, ?_, ?_, ?_, ?_⟩
      · exact dseg_setNeedsRedraw (dseg_setNeedsRedraw hrest)
      · exact FlagsAre_setNeedsRedraw (FlagsAre_setNeedsRedraw
          (fun j hj => hdf j (List.mem_cons_of_mem x hj)))
      · exact dseg_setNeedsRedraw (dseg_setNeedsRedraw hvchain)
      · exact FlagsAre_setNeedsRedraw (FlagsAre_setNeedsRedraw hvf)
  · have hcx : v.uiCurrControl = some x := by simpa using hcurr
    rw [hcx] at hchain
    obtain ⟨_, c, hc, hcp, hrest⟩ := hchain
    have hnext : c.uiNext = some y := hrest.1
    refine ⟨_, moveToNextControl_go hcx hc
      (by unfold nextTarget; rw [hnext]), ?_⟩
    right
    rw [hnext] at hrest
    refine ⟨List.cons_ne_nil y r2, rfl, ⟨some x, ?_⟩, ?_⟩
    · exact dseg_setNeedsRedraw (dseg_setNeedsRedraw hrest)
    · exact FlagsAre_setNeedsRedraw (FlagsAre_setNeedsRedraw
        (fun j hj => hf j (List.mem_cons_of_mem x hj)))

/-! ## Stepping move_to_previous_control -/

/-- The tail walk of lines 461-463 lands on the last node of the
chain, given enough fuel. -/
theorem walkToTail_of_dseg :
    ∀ (l : List Nat) (a : Array Control) (p : Option Nat) (x : Nat) (fuel : Nat),
      dseg a p (some x) l none → l ≠ [] → l.length ≤ fuel →
      walkToTail a fuel x = l.getLast? := by
  intro l
  induction l with
  | nil => intro a p x fuel hs hne _; exact absurd rfl hne
  | cons j t ih =>
    intro a p x fuel hs hne hlen
    obtain ⟨hh, c, hc, hcp, hrest⟩ := hs
    have hxj : x = j := Option.some_inj.mp hh
    subst hxj
    obtain ⟨f, rfl⟩ : ∃ f, fuel = f + 1 := by
      cases fuel with
      | zero => exact absurd hlen (by simp)
      | succ f => exact ⟨f, rfl⟩
    cases t with
    | nil =>
      have hnext : c.uiNext = none := hrest
      unfold walkToTail
      simp only [hc, hnext]
      rw [List.getLast?_singleton]
    | cons u t' =>
      have hnext : c.uiNext = some u := hrest.1
      rw [hnext] at hrest
      unfold walkToTail
      simp only [hc, hnext]
      show walkToTail a f u = (x :: u :: t').getLast?
      rw [List.getLast?_cons_cons]
      exact ih a (some x) u f hrest (List.cons_ne_nil u t')
        (Nat.le_of_succ_le_succ hlen)

/-- The predecessor computation of lines 458-464: `some (some p)` is a
movement target, `some none` the no-movement path, `none` the null
dereference of walking an empty device list. -/
def prevTarget (v : MixerView) (c : Control) : Option (Option Nat) :=
  match c.uiPrev with
  | some p => some (some p)
  | none =>
    if c.isVmix then
      match v.uiDevControls with
      | none => none
      | some hd =>
        match walkToTail v.controls (v.controls.size + 1) hd with
        | none => none
        | some t => some (some t)
    else some none

theorem moveToPreviousControl_stay {v : MixerView} {x : Nat} {c : Control}
    (hcurr : v.uiCurrControl = some x) (hc : v.controls[x]? = some c)
    (hpi : prevTarget v c = some none) :
    moveToPreviousControl v = some v := by
  unfold moveToPreviousControl
  simp only [hcurr, hc]
  show (match prevTarget v c with
        | none => none
        | some none => some v
        | some (some pi) =>
          some { v with controls := setNeedsRedraw (setNeedsRedraw v.controls x true) pi true,
                        uiCurrControl := some pi }) = some v
  rw [hpi]

theorem moveToPreviousControl_go {v : MixerView} {x pi : Nat} {c : Control}
    (hcurr : v.uiCurrControl = some x) (hc : v.controls[x]? = some c)
    (hpi : prevTarget v c = some (some pi)) :
    moveToPreviousControl v =
      some { v with controls := setNeedsRedraw (setNeedsRedraw v.controls x true) pi true,
                    uiCurrControl := some pi } := by
  unfold moveToPreviousControl
  simp only [hcurr, hc]
  show (match prevTarget v c with
        | none => none
        | some none => some v
        | some (some pi) =>
          some { v with controls := setNeedsRedraw (setNeedsRedraw v.controls x true) pi true,
                        uiCurrControl := some pi }) = _
  rw [hpi]

/-- Residue invariant for backward navigation: `rest` is the list of
controls still to be visited (current first), walking `ui_prev`.
Either the selection is inside the vmix list (with the whole device
list, in reverse, still ahead), or inside the device list. -/
def NavRestPrev (v : MixerView) (rest : List Nat) : Prop :=
  (∃ r1 q dl, rest = r1 ++ dl.reverse ∧ r1 ≠ [] ∧ v.uiCurrControl = r1.head? ∧
     dsegR v.controls q v.uiCurrControl r1 none ∧ FlagsAre v.controls r1 true ∧
     dseg v.controls none v.uiDevControls dl none ∧ FlagsAre v.controls dl false ∧
     dl ≠ [] ∧ dl.length ≤ v.controls.size)
  ∨ (rest ≠ [] ∧ v.uiCurrControl = rest.head? ∧
     (∃ q, dsegR v.controls q v.uiCurrControl rest none) ∧ FlagsAre v.controls rest false)

theorem navRestPrev_curr {v : MixerView} {rest : List Nat}
    (hinv : NavRestPrev v rest) : rest ≠ [] ∧ v.uiCurrControl = rest.head? := by
  rcases hinv with ⟨r1, q, dl, heq, hne, hcurr, _⟩ | ⟨hne, hcurr, _⟩
  · subst heq
    refine ⟨?_, ?_⟩
    · cases r1 with
      | nil => exact absurd rfl hne
      | cons a t => simp
    · cases r1 with
      | nil => exact absurd rfl hne
      | cons a t => simpa using hcurr
  · exact ⟨hne, hcurr⟩

theorem size_setNeedsRedraw (a : Array Control) (i : Nat) (b : Bool) :
    (setNeedsRedraw a i b).size = a.size :=
  size_updC a i _

theorem movePrev_last {v : MixerView} {x : Nat}
    (hinv : NavRestPrev v [x]) : moveToPreviousControl v = some v := by
  rcases hinv with ⟨r1, q, dl, heq, hne, hcurr, hchain, hf, hdchain, hdf, hdne, hdlen⟩ |
    ⟨_, hcurr, ⟨q, hchain⟩, hf⟩
  · -- impossible: r1 and dl.reverse are both nonempty, but rest is a singleton
    exfalso
    obtain ⟨a1, t, rfl⟩ : ∃ a1 t, r1 = a1 :: t := by
      cases r1 with
      | nil => exact absurd rfl hne
      | cons a1 t => exact ⟨a1, t, rfl⟩
    obtain ⟨d0, dt, hdl⟩ : ∃ d0 dt, dl = d0 :: dt := by
      cases dl with
      | nil => exact absurd rfl hdne
      | cons d0 dt => exact ⟨d0, dt, rfl⟩
    rw [List.cons_append] at heq
    injection heq with h1 h2
    have h3 := (List.append_eq_nil.mp h2.symm).2
    rw [hdl] at h3
    simp at h3
  · have hcx : v.uiCurrControl = some x := by simpa using hcurr
    rw [hcx] at hchain
    obtain ⟨_, c, hc, hcn, hrest⟩ := hchain
    have hprev : c.uiPrev = none := hrest
    have hflag : c.isVmix = false := by
      have := hf x (List.mem_singleton_self x)
      rw [hc] at this
      exact Option.some_inj.mp this
    refine moveToPreviousControl_stay hcx hc ?_
    unfold prevTarget
    rw [hprev, hflag]
    rfl

theorem movePrev_cons {v : MixerView} {x y : Nat} {r2 : List Nat}
    (hinv : NavRestPrev v (x :: y :: r2)) :
    ∃ v', moveToPreviousControl v = some v' ∧ NavRestPrev v' (y :: r2) := by
  rcases hinv with ⟨r1, q, dl, heq, hne, hcurr, hchain, hf, hdchain, hdf, hdne, hdlen⟩ |
    ⟨_, hcurr, ⟨q, hchain⟩, hf⟩
  · obtain ⟨a1, t, rfl⟩ : ∃ a1 t, r1 = a1 :: t := by
      cases r1 with
      | nil => exact absurd rfl hne
      | cons a1 t => exact ⟨a1, t, rfl⟩
    rw [List.cons_append] at heq
    injection heq with h1 h2
    subst h1
    have hcx : v.uiCurrControl = some x := by simpa using hcurr
    rw [hcx] at hchain
    obtain ⟨_, c, hc, hcn, hrest⟩ := hchain
    cases t with
    | nil =>
      -- head of the vmix list: fall through to the device-list tail
      have hprev : c.uiPrev = none := hrest
      have hflag : c.isVmix = true := by
        have := hf x (List.mem_cons_self x [])
        rw [hc] at this
        exact Option.some_inj.mp this
      have hdrev : dl.reverse = y :: r2 := by simpa using h2.symm
      obtain ⟨d0, dt, rfl⟩ : ∃ d0 dt, dl = d0 :: dt := by
        cases dl with
        | nil => exact absurd rfl hdne
        | cons d0 dt => exact ⟨d0, dt, rfl⟩
      have hdh : v.uiDevControls = some d0 := hdchain.1
      have hgl : (d0 :: dt).getLast? = some y := by
        have h1 := List.getLast?_reverse (d0 :: dt).reverse
        rw [List.reverse_reverse] at h1
        rw [h1, hdrev]
        rfl
      have hdchain' : dseg v.controls none (some d0) (d0 :: dt) none := by
        rw [← hdh]
        exact hdchain
      have hwalk : walkToTail v.controls (v.controls.size + 1) d0 = some y := by
        rw [walkToTail_of_dseg (d0 :: dt) v.controls none d0 (v.controls.size + 1)
          hdchain' (List.cons_ne_nil d0 dt) (by omega)]
        exact hgl
      have hRrev : dsegR v.controls none ((d0 :: dt).getLast?) (d0 :: dt).reverse none :=
        dseg_reverse hdchain (List.cons_ne_nil d0 dt)
      have hpt : prevTarget v c = some (some y) := by
        unfold prevTarget
        rw [hprev]
        show (if c.isVmix = true then
                match v.uiDevControls with
                | none => none
                | some hd =>
                  match walkToTail v.controls (v.controls.size + 1) hd with
                  | none => none
                  | some t => some (some t)
              else some none) = some (some y)
        rw [hflag, if_pos (rfl : (true : Bool) = true), hdh]
        show (match walkToTail v.controls (v.controls.size + 1) d0 with
              | none => none
              | some t => some (some t)) = some (some y)
        rw [hwalk]
      refine ⟨_, moveToPreviousControl_go hcx hc hpt, ?_⟩
      right
      rw [hgl] at hRrev
      rw [hdrev] at hRrev
      refine ⟨List.cons_ne_nil y r2, rfl, ⟨none, ?_⟩, ?_⟩
      · exact dsegR_setNeedsRedraw (dsegR_setNeedsRedraw hRrev)
      · refine FlagsAre_setNeedsRedraw (FlagsAre_setNeedsRedraw ?_)
        intro j hj
        refine hdf j ?_
        rw [← List.mem_reverse, hdrev]
        exact hj
    | cons u t2 =>
      -- predecessor within the vmix list
      rw [List.cons_append] at h2
      injection h2 with h3 h4
      subst h3
      have hprev : c.uiPrev = some y := hrest.1
      refine ⟨_, moveToPreviousControl_go hcx hc
        (by unfold prevTarget; rw [hprev]), ?_⟩
      left
      rw [hprev] at hrest
      refine ⟨y :: t2, some x, dl, by rw [h4, List.cons_append], List.cons_ne_nil y t2,
        rfl, ?_, ?_, ?_, ?_, hdne, ?_⟩
      · exact dsegR_setNeedsRedraw (dsegR_setNeedsRedraw hrest)
      · exact FlagsAre_setNeedsRedraw (FlagsAre_setNeedsRedraw
          (fun j hj => hf j (List.mem_cons_of_mem x hj)))
      · exact dseg_setNeedsRedraw (dseg_setNeedsRedraw hdchain)
      · exact FlagsAre_setNeedsRedraw (FlagsAre_setNeedsRedraw hdf)
      · rw [size_setNeedsRedraw, size_setNeedsRedraw]
        exact hdlen
  · have hcx : v.uiCurrControl = some x := by simpa using hcurr
    rw [hcx] at hchain
    obtain ⟨_, c, hc, hcn, hrest⟩ := hchain
    have hprev : c.uiPrev = some y := hrest.1
    refine ⟨_, moveToPreviousControl_go hcx hc
      (by unfold prevTarget; rw [hprev]), ?_⟩
    right
    rw [hprev] at hrest
    refine ⟨List.cons_ne_nil y r2, rfl, ⟨some x, ?_⟩, ?_⟩
    · exact dsegR_setNeedsRedraw (dsegR_setNeedsRedraw hrest)
    · exact FlagsAre_setNeedsRedraw (FlagsAre_setNeedsRedraw
        (fun j hj => hf j (List.mem_cons_of_mem x hj)))

/-! ## The navigation runs over a freshly loaded device -/

theorem dseg_head {a : Array Control} {p h q : Option Nat} {l : List Nat}
    (hs : dseg a p h l q) (hne : l ≠ []) : h = l.head? := by
  cases l with
  | nil => exact absurd rfl hne
  | cons x t => exact hs.1

/-- Forward traversal: starting from the freshly loaded state, `k`
presses of the next key leave selected the `min k (len-1)`-th element
of the device list followed by the vmix list. -/
theorem nav_next_run (metas : List CtrlMeta) (hdev : devIdxs metas ≠ []) :
    ∀ k : Nat,
      (iterNext k (mixer0View (load_mixers (envOfMetas metas)))).map
          MixerView.uiCurrControl =
        some (some ((devIdxs metas ++ vmixIdxs metas).getD
          (min k ((devIdxs metas ++ vmixIdxs metas).length - 1)) 0)) := by
  intro k
  obtain ⟨_, _, char⟩ := load_single_char metas
  set v := mixer0View (load_mixers (envOfMetas metas)) with hv
  have hchain : dseg v.controls none v.uiCurrControl (devIdxs metas) none := by
    rw [char.curr_eq]
    exact char.devChain
  have hinv : NavRestNext v (devIdxs metas ++ vmixIdxs metas) := by
    left
    refine ⟨devIdxs metas, none, vmixIdxs metas, rfl, hdev, ?_, hchain, ?_, ?_, ?_⟩
    · rw [char.curr_eq]
      exact dseg_head char.devChain hdev
    · exact char.devFlag
    · exact char.vmixChain
    · exact char.vmixFlag
  rw [iterNext_eq_iterOp]
  exact navRun moveToNextControl NavRestNext
    (fun v x h => moveNext_last h)
    (fun v x y r2 h => moveNext_cons h)
    (fun v rest h => navRestNext_curr h)
    k v (devIdxs metas ++ vmixIdxs metas) hinv

/-- Backward traversal: starting from the tail of the vmix list of a
freshly loaded state (with nonempty device list), `k` presses of the
previous key leave selected the `min k (len-1)`-th element of the
reversed vmix list followed by the reversed device list. -/
theorem nav_prev_run (metas : List CtrlMeta) (hdev : devIdxs metas ≠ [])
    (hvm : vmixIdxs metas ≠ []) :
    ∀ k : Nat,
      (iterPrev k { mixer0View (load_mixers (envOfMetas metas)) with
          uiCurrControl := (vmixIdxs metas).getLast? }).map MixerView.uiCurrControl =
        some (some (((vmixIdxs metas).reverse ++ (devIdxs metas).reverse).getD
          (min k (((vmixIdxs metas).reverse ++ (devIdxs metas).reverse).length - 1)) 0)) := by
  intro k
  obtain ⟨_, _, char⟩ := load_single_char metas
  set v := mixer0View (load_mixers (envOfMetas metas)) with hv
  set vstart : MixerView :=
    { v with uiCurrControl := (vmixIdxs metas).getLast? } with hvstart
  have hRrev : dsegR v.controls none (vmixIdxs metas).getLast?
      (vmixIdxs metas).reverse none :=
    dseg_reverse char.vmixChain hvm
  have hinv : NavRestPrev vstart ((vmixIdxs metas).reverse ++ (devIdxs metas).reverse) := by
    left
    refine ⟨(vmixIdxs metas).reverse, none, devIdxs metas, rfl, ?_, ?_, ?_, ?_, ?_, ?_,
      hdev, ?_⟩
    · simpa using hvm
    · show (vmixIdxs metas).getLast? = (vmixIdxs metas).reverse.head?
      rw [List.head?_reverse]
    · exact hRrev
    · intro j hj
      exact char.vmixFlag j (List.mem_reverse.mp hj)
    · exact char.devChain
    · exact char.devFlag
    · show (devIdxs metas).length ≤ v.controls.size
      rw [char.size_eq]
      exact devIdxsBelow_length_le metas metas.length
  rw [iterPrev_eq_iterOp]
  exact navRun moveToPreviousControl NavRestPrev
    (fun v x h => movePrev_last h)
    (fun v x y r2 h => movePrev_cons h)
    (fun v rest h => navRestPrev_curr h)
    k vstart ((vmixIdxs metas).reverse ++ (devIdxs metas).reverse) hinv

/-! ## Codec bounds -/

theorem clampVolume_mem (v : Int) : 0 ≤ clampVolume v ∧ clampVolume v ≤ 100 := by
  unfold clampVolume
  split
  · omega
  · split <;> omega

theorem encodeNative_mem {minv maxv p : Int} (hlt : minv < maxv)
    (h0 : 0 ≤ p) (h1 : p ≤ 100) :
    minv ≤ encodeNative minv maxv p ∧ encodeNative minv maxv p ≤ maxv := by
  unfold encodeNative
  have hd : (0 : Int) < maxv - minv := by omega
  have hnum : 0 ≤ p * (maxv - minv) := mul_nonneg h0 (le_of_lt hd)
  rw [Int.tdiv_eq_ediv hnum (by norm_num)]
  constructor
  · have := Int.ediv_nonneg hnum (by norm_num : (0:Int) ≤ 100)
    omega
  · have hle : p * (maxv - minv) ≤ 100 * (maxv - minv) :=
      mul_le_mul_of_nonneg_right h1 (le_of_lt hd)
    have h2 : p * (maxv - minv) / 100 ≤ 100 * (maxv - minv) / 100 :=
      Int.ediv_le_ediv (by norm_num) hle
    have h3 : (100 : Int) * (maxv - minv) / 100 = maxv - minv :=
      Int.mul_ediv_cancel_left _ (by norm_num)
    omega

theorem decodeVolume_mem_of_min_zero {t : CtrlType} {maxv : Int} {raw : Nat}
    (hmax : 0 < maxv) (hle : (vleftOf t raw : Int) ≤ maxv) :
    0 ≤ decodeVolume t 0 maxv raw ∧ decodeVolume t 0 maxv raw ≤ 100 := by
  unfold decodeVolume
  have hsub : maxv - 0 = maxv := by ring
  rw [hsub]
  have hv0 : (0 : Int) ≤ (vleftOf t raw : Int) := Int.natCast_nonneg _
  have hnum : 0 ≤ (vleftOf t raw : Int) * 100 := by positivity
  rw [Int.tdiv_eq_ediv hnum (le_of_lt hmax)]
  constructor
  · have := Int.ediv_nonneg hnum (le_of_lt hmax)
    omega
  · have hle2 : (vleftOf t raw : Int) * 100 ≤ maxv * 100 :=
      mul_le_mul_of_nonneg_right hle (by norm_num)
    have h2 : (vleftOf t raw : Int) * 100 / maxv ≤ maxv * 100 / maxv :=
      Int.ediv_le_ediv hmax hle2
    have h3 : maxv * 100 / maxv = 100 :=
      Int.mul_ediv_cancel_left _ (by omega)
    omega

/-! ## The draw pass (draw_ui over its two lists) -/

/-- Whether the cell at `i` is dirty. -/
def dirtyAt (a : Array Control) (i : Nat) : Bool :=
  match a[i]? with
  | some c => c.needsRedraw
  | none => false

theorem drawPass_spec (fetch : Nat → Option Nat) :
    ∀ (order : List Nat) (a : Array Control),
      order.Nodup → (∀ i ∈ order, i < a.size) →
      (drawPass fetch a order).2 = order.filter (dirtyAt a)
      ∧ (∀ i ∈ order,
          ((drawPass fetch a order).1[i]?).map Control.needsRedraw =
            (a[i]?).map (fun c => c.needsRedraw && (fetch i).isNone))
      ∧ (∀ j, j ∉ order → (drawPass fetch a order).1[j]? = a[j]?) := by
  intro order
  induction order with
  | nil =>
    intro a _ _
    exact ⟨rfl, fun i hi => absurd hi (List.not_mem_nil i), fun j _ => rfl⟩
  | cons i rest ih =>
    intro a hnd hbnd
    have hia : i < a.size := hbnd i (List.mem_cons_self i rest)
    obtain ⟨c, hc⟩ : ∃ c, a[i]? = some c := ⟨a[i], Array.getElem?_eq_getElem hia⟩
    have hirest : i ∉ rest := (List.nodup_cons.mp hnd).1
    have hstep : drawPass fetch a (i :: rest) =
        ((drawPass fetch (updC a i (fun _ => (drawControl c (fetch i)).ctrl)) rest).1,
         (if (drawControl c (fetch i)).fetched then [i] else []) ++
           (drawPass fetch (updC a i (fun _ => (drawControl c (fetch i)).ctrl)) rest).2) := by
      conv_lhs => rw [drawPass]
      simp only [hc]
    set a' := updC a i (fun _ => (drawControl c (fetch i)).ctrl) with ha'
    have ha'get : ∀ j, a'[j]? =
        if i = j then some (drawControl c (fetch i)).ctrl else a[j]? := by
      intro j
      rw [ha', getElem?_updC]
      by_cases hij : i = j
      · rw [if_pos hij, if_pos hij, ← hij, hc]
        rfl
      · rw [if_neg hij, if_neg hij]
    obtain ⟨ihlog, ihdirty, ihoff⟩ := ih a' (List.nodup_cons.mp hnd).2
      (fun j hj => by
        rw [size_updC]
        exact hbnd j (List.mem_cons_of_mem i hj))
    refine ⟨?_, ?_, ?_⟩
    · rw [hstep]
      show (if (drawControl c (fetch i)).fetched then [i] else []) ++
          (drawPass fetch a' rest).2 = List.filter (dirtyAt a) (i :: rest)
      rw [ihlog, List.filter_cons]
      have hdirt : dirtyAt a i = c.needsRedraw := by
        unfold dirtyAt
        rw [hc]
      have hfetch : (drawControl c (fetch i)).fetched = c.needsRedraw := by
        unfold drawControl
        cases hcn : c.needsRedraw with
        | false => rfl
        | true => cases fetch i <;> rfl
      have hfilt : List.filter (dirtyAt a') rest = List.filter (dirtyAt a) rest := by
        refine List.filter_congr (fun j hj => ?_)
        unfold dirtyAt
        rw [ha'get j, if_neg (by rintro rfl; exact hirest hj)]
      rw [hfilt] at ihlog ⊢
      rw [hfetch, hdirt]
      cases c.needsRedraw <;> simp
    · intro j hj
      rcases List.mem_cons.mp hj with hji | hjrest
      · rw [hstep, hji]
        show ((drawPass fetch a' rest).1[i]?).map Control.needsRedraw = _
        rw [ihoff i hirest, ha'get i, if_pos rfl, hc]
        show some (drawControl c (fetch i)).ctrl.needsRedraw =
          some (c.needsRedraw && (fetch i).isNone)
        unfold drawControl
        cases hcn : c.needsRedraw with
        | false => simp [hcn]
        | true => cases fetch i <;> simp [hcn]
      · rw [hstep]
        show ((drawPass fetch a' rest).1[j]?).map Control.needsRedraw = _
        rw [ihdirty j hjrest, ha'get j,
          if_neg (by rintro rfl; exact hirest hjrest)]
    · intro j hj
      rw [hstep]
      show (drawPass fetch a' rest).1[j]? = a[j]?
      rw [ihoff j (fun hh => hj (List.mem_cons_of_mem i hh)), ha'get j,
        if_neg (fun hh => hj (by rw [← hh]; exact List.mem_cons_self i rest))]

/-! ## The poll loop's marking step -/

/-- Lines 569-571 mark every control of the current device dirty and
touch nothing else — unconditionally: no generation counter is read
(the initialized-but-never-used `modify_counter` of line 549 included). -/
theorem pollIterMark_spec (ms : Array PollMixer) (cur : Nat) :
    (∀ m, m ≠ cur → (pollIterMark ms cur)[m]? = ms[m]?)
    ∧ (∀ mcur, ms[cur]? = some mcur →
        (pollIterMark ms cur)[cur]? =
          some { mcur with
                 controls := mcur.controls.map (fun c => { c with needsRedraw := true }) }) := by
  unfold pollIterMark
  split
  case isTrue h =>
    constructor
    · intro m hm
      rw [Array.get?_set]
      rw [if_neg (fun hh => hm (hh.symm))]
    · intro mcur hmc
      rw [Array.get?_set, if_pos rfl]
      rw [Array.getElem?_eq_getElem h] at hmc
      have : ms.get ⟨cur, h⟩ = mcur := by
        rw [Array.get_eq_getElem]
        exact Option.some_inj.mp hmc
      rw [this]
  case isFalse h =>
    constructor
    · intro m _
      rfl
    · intro mcur hmc
      exfalso
      apply h
      simp only [getElem?_def] at hmc
      split at hmc
      · assumption
      · exact Option.noConfusion hmc

/-! ## Concrete transport environments exercising the load error paths -/

/-- One enabled device with one control whose EXTINFO fetch fails. -/
def envCtrlFail : LoadEnv :=
  { nrmix := some 1,
    mixerinfo := fun m => if m = 0 then some ⟨true, 1⟩ else none,
    extinfo := fun _ _ => none }

/-- A device whose MIXERINFO fetch fails. -/
def envDevFail : LoadEnv :=
  { nrmix := some 1, mixerinfo := fun _ => none, extinfo := fun _ _ => none }

/-- Zero devices. -/
def envNoDevs : LoadEnv :=
  { nrmix := some 0, mixerinfo := fun _ => none, extinfo := fun _ _ => none }

/-- Two enabled devices, each with a single navigable device-group
control at index 0. -/
def envTwoDevs : LoadEnv :=
  { nrmix := some 2,
    mixerinfo := fun _ => some ⟨true, 1⟩,
    extinfo := fun _ _ => some ⟨.stereoSlider, false, 0, 100⟩ }

/-- The node indices reachable from a list head by following `ui_next`
(with fuel; used to exhibit list membership on concrete states). -/
def chainNodes (a : Array Control) : Nat → Option Nat → List Nat
  | 0, _ => []
  | _, none => []
  | fuel+1, some i =>
    i :: (match a[i]? with
          | none => []
          | some c => chainNodes a fuel c.uiNext)

/-! ## Null dereference of the current-selection pointer -/

theorem moveToNextControl_null {v : MixerView} (h : v.uiCurrControl = none) :
    moveToNextControl v = none := by
  unfold moveToNextControl
  rw [h]

theorem moveToPreviousControl_null {v : MixerView} (h : v.uiCurrControl = none) :
    moveToPreviousControl v = none := by
  unfold moveToPreviousControl
  rw [h]

theorem modifyVolumeOp_null {v : MixerView} (h : v.uiCurrControl = none)
    (readRaw : Option Nat) (sign : Int) : modifyVolumeOp v readRaw sign = none := by
  unfold modifyVolumeOp
  rw [h]

theorem setVolumeOp_null {v : MixerView} (h : v.uiCurrControl = none)
    (volume : Int) : setVolumeOp v volume = none := by
  unfold setVolumeOp
  rw [h]

/-- A device whose `Device` list is empty keeps `ui_curr_control`
NULL after load (line 269 copies the NULL `ui_dev_controls`). -/
theorem load_empty_dev_list_curr_none (metas : List CtrlMeta)
    (hdev : devIdxs metas = []) :
    (mixer0View (load_mixers (envOfMetas metas))).uiCurrControl = none := by
  obtain ⟨_, _, char⟩ := load_single_char metas
  rw [char.curr_eq]
  have := char.devChain
  rw [hdev] at this
  exact this

/-! ## The volume mutation handlers write clamped native samples -/

theorem setVolumeOp_eq {st : MixerView} {i : Nat} {c : Control} (volume : Int)
    (hcurr : st.uiCurrControl = some i) (hc : st.controls[i]? = some c) :
    setVolumeOp st volume =
      some (setControlVolumeReq c.ctype c.minvalue c.maxvalue (clampVolume volume)) := by
  unfold setVolumeOp
  simp only [hcurr, hc]

theorem modifyVolumeOp_eq {st : MixerView} {i : Nat} {c : Control} (raw : Nat) (sign : Int)
    (hcurr : st.uiCurrControl = some i) (hc : st.controls[i]? = some c)
    (hno : decodeVolume c.ctype c.minvalue c.maxvalue raw ≠ -1) :
    modifyVolumeOp st (some raw) sign =
      some (some (setControlVolumeReq c.ctype c.minvalue c.maxvalue
        (clampVolume (decodeVolume c.ctype c.minvalue c.maxvalue raw + volumeStep sign)))) := by
  unfold modifyVolumeOp
  simp only [hcurr, hc]
  rw [if_neg hno]

theorem modifyVolumeOp_sentinel {st : MixerView} {i : Nat} {c : Control} (raw : Nat)
    (sign : Int) (hcurr : st.uiCurrControl = some i) (hc : st.controls[i]? = some c)
    (hyes : decodeVolume c.ctype c.minvalue c.maxvalue raw = -1) :
    modifyVolumeOp st (some raw) sign = some none := by
  unfold modifyVolumeOp
  simp only [hcurr, hc]
  rw [if_pos hyes]

theorem setControlVolumeReq_vleft_mem {t : CtrlType} {minv maxv v : Int}
    (hlt : minv < maxv) :
    minv ≤ (setControlVolumeReq t minv maxv (clampVolume v)).vleft
    ∧ (setControlVolumeReq t minv maxv (clampVolume v)).vleft ≤ maxv := by
  obtain ⟨h0, h1⟩ := clampVolume_mem v
  have := encodeNative_mem hlt h0 h1
  exact this

/-! # The claims -/

/-- The 8-bit full encode/write/read/decode cycle of claim C8 on a
`min=0, max=100` control: the packed word written by
`set_control_volume` is read back unchanged and decoded by
`get_control_volume`. -/
def roundTrip8 (p : Int) : Int :=
  decodeVolume .stereoSlider 0 100 (setControlVolumeReq .stereoSlider 0 100 p).value

/-- An example control population: two navigable device-group
controls (indices 0 and 2), one inert control (index 1), one navigable
vmix control (index 3). -/
def exMetas : List CtrlMeta :=
  [⟨.stereoSlider, false, 0, 100⟩, ⟨.other, false, 0, 3⟩,
   ⟨.stereoSlider16, false, 0, 255⟩, ⟨.stereoSlider, true, 0, 100⟩]

/-- A population with one device-group and one vmix control. -/
def exMetas2 : List CtrlMeta :=
  [⟨.stereoSlider, false, 0, 100⟩, ⟨.stereoSlider, true, 0, 100⟩]

/-- A population whose only navigable control is a vmix one. -/
def exMetasVmixOnly : List CtrlMeta := [⟨.stereoSlider, true, 0, 100⟩]

/-- A single-device poll state: counter value -1 (line 549), one clean
control. -/
def exPollState : Array PollMixer :=
  #[⟨-1, #[{ callocControl with ctype := .stereoSlider, maxvalue := 100 }]⟩]

/-- C1 (code_bug): on a control-metadata (EXTINFO) fetch failure,
`load_mixers` calls `free_mixers()` but then only `break`s out of the
inner loop (line 242) and finally returns 0 — success — instead of
-1, unlike the sibling error paths (MIXERINFO failure and zero
devices, which do return -1 after releasing).  The claim says any
metadata failure aborts the load with an error result; the code only
does so for device-level failures. -/
theorem load_mixers_extinfo_failure_returns_success :
    ((load_mixers envDevFail).ret = -1 ∧ (load_mixers envDevFail).freed = true)
    ∧ (load_mixers envNoDevs).ret = -1
    ∧ ((load_mixers envCtrlFail).freed = true ∧ (load_mixers envCtrlFail).ret = 0) := by
  decide

/-- C3 (code_bug): line 233 takes `&mixers->controls[e]` — mixer 0's
array — instead of `&mixer->controls[e]`.  With two devices, each
owning one navigable device-group control at index 0, the single
shared node (index 0 of mixer 0's array) ends up heading **both**
devices' `Device` navigation lists, and its `info.dev` field records
device 1 although it also heads device 0's list: a control node
appears in the lists of two devices, refuting the exactly-one-list
invariant for two enumerated devices. -/
theorem load_mixers_aliasing_shares_node_across_devices :
    ((load_mixers envTwoDevs).mixers[0]?).map GMixer.uiDevControls = some (some 0)
    ∧ ((load_mixers envTwoDevs).mixers[1]?).map GMixer.uiDevControls = some (some 0)
    ∧ chainNodes (load_mixers envTwoDevs).ctrls0 1 (some 0) = [0]
    ∧ ((load_mixers envTwoDevs).ctrls0[0]?).map Control.dev = some 1 := by
  decide

/-- C2 (counterexample): the claim says the generation counter is
re-fetched each iteration and the device's dirty bits are set *only
when* it differs from the last-observed value.  The loop body
(lines 569-571) consults no counter at all — `modify_counter`
(line 549) is initialized and never read — and marks unconditionally:
here the stored counter is untouched (nothing was fetched or
compared), the control was clean, and one poll iteration still sets
its dirty bit. -/
theorem poll_marks_dirty_with_unchanged_counter_cex :
    ((pollIterMark exPollState 0)[0]?).map PollMixer.modifyCounter =
      (exPollState[0]?).map PollMixer.modifyCounter
    ∧ ((exPollState[0]?).map
        (fun m => (m.controls[0]?).map Control.needsRedraw)) = some (some false)
    ∧ (((pollIterMark exPollState 0)[0]?).map
        (fun m : PollMixer => (m.controls[0]?).map Control.needsRedraw)) =
      some (some true) := by
  decide

/-- C2 (amended): on each poll-loop iteration every control of the
current device is unconditionally marked dirty — no generation
counter is fetched or compared — and the controls of every other
device are left untouched. -/
theorem poll_iteration_marks_current_device_unconditionally
    (ms : Array PollMixer) (cur : Nat) :
    (∀ m, m ≠ cur → (pollIterMark ms cur)[m]? = ms[m]?)
    ∧ (∀ (mcur : PollMixer) (c : Nat), ms[cur]? = some mcur →
        ((pollIterMark ms cur)[cur]?).map
            (fun m : PollMixer => (m.controls[c]?).map Control.needsRedraw) =
          some ((mcur.controls[c]?).map (fun _ : Control => true))) := by
  obtain ⟨hoff, hcur⟩ := pollIterMark_spec ms cur
  refine ⟨hoff, fun mcur c hmc => ?_⟩
  rw [hcur mcur hmc]
  simp only [Option.map_some', Array.getElem?_map, Option.map_map]
  rfl

/-- Witness for C2's amended theorem at a concrete state. -/
theorem poll_iteration_marks_witness :
    (pollIterMark exPollState 0)[1]? = exPollState[1]?
    ∧ ((pollIterMark exPollState 0)[0]?).map
        (fun m : PollMixer => (m.controls[0]?).map Control.needsRedraw) = some (some true) := by
  have h := poll_iteration_marks_current_device_unconditionally exPollState 0
  refine ⟨h.1 1 (by decide), ?_⟩
  have h2 := h.2 ⟨-1, #[{ callocControl with ctype := .stereoSlider, maxvalue := 100 }]⟩ 0
    (by decide)
  rw [h2]
  decide

/-- C4 (counterexample): the claim asserts decode yields a percentage
in [0,100] whenever the left sample lies in [min,max] and max > min.
For the 8-bit control with `min = 10, max = 20` and raw value 15 the
left sample 15 lies within [10,20], yet
`10 + (15*100)/(20-10) = 160 > 100`: the decode formula of line 131
only stays within [0,100] when `min = 0`. -/
theorem decode_percentage_out_of_range_cex :
    (10 : Int) < 20
    ∧ (10 : Int) ≤ (vleftOf .stereoSlider 15 : Int)
    ∧ (vleftOf .stereoSlider 15 : Int) ≤ 20
    ∧ decodeVolume .stereoSlider 10 20 15 = 160
    ∧ ¬(decodeVolume .stereoSlider 10 20 15 ≤ 100) := by
  decide

/-- C4 (amended): for a navigable control with `min = 0 < max`,
decoding a raw value whose left-channel sample lies within [0,max]
yields a percentage in [0,100]; and for every control with
`min < max`, the native sample passed to the transport write by
`set_volume` or `modify_volume` lies within [min,max] (the handlers
clamp the percentage to [0,100] before `set_control_volume` encodes
it). -/
theorem decode_range_and_write_clamp :
    (∀ (t : CtrlType) (maxv : Int) (raw : Nat),
        navigableKind t = true → 0 < maxv → (vleftOf t raw : Int) ≤ maxv →
        0 ≤ decodeVolume t 0 maxv raw ∧ decodeVolume t 0 maxv raw ≤ 100)
    ∧ (∀ (st : MixerView) (i : Nat) (c : Control) (vol : Int) (r : WriteReq),
        st.uiCurrControl = some i → st.controls[i]? = some c →
        c.minvalue < c.maxvalue → setVolumeOp st vol = some r →
        c.minvalue ≤ r.vleft ∧ r.vleft ≤ c.maxvalue)
    ∧ (∀ (st : MixerView) (i : Nat) (c : Control) (raw : Nat) (sign : Int) (r : WriteReq),
        st.uiCurrControl = some i → st.controls[i]? = some c →
        c.minvalue < c.maxvalue → modifyVolumeOp st (some raw) sign = some (some r) →
        c.minvalue ≤ r.vleft ∧ r.vleft ≤ c.maxvalue) := by
  refine ⟨fun t maxv raw _ hmax hle => decodeVolume_mem_of_min_zero hmax hle, ?_, ?_⟩
  · intro st i c vol r hcurr hc hlt hop
    rw [setVolumeOp_eq vol hcurr hc] at hop
    have hr : r = setControlVolumeReq c.ctype c.minvalue c.maxvalue (clampVolume vol) :=
      (Option.some_inj.mp hop).symm
    rw [hr]
    exact setControlVolumeReq_vleft_mem hlt
  · intro st i c raw sign r hcurr hc hlt hop
    by_cases hsent : decodeVolume c.ctype c.minvalue c.maxvalue raw = -1
    · rw [modifyVolumeOp_sentinel raw sign hcurr hc hsent] at hop
      exact Option.noConfusion (Option.some_inj.mp hop)
    · rw [modifyVolumeOp_eq raw sign hcurr hc hsent] at hop
      have hr : r = setControlVolumeReq c.ctype c.minvalue c.maxvalue
          (clampVolume (decodeVolume c.ctype c.minvalue c.maxvalue raw + volumeStep sign)) :=
        (Option.some_inj.mp (Option.some_inj.mp hop)).symm
      rw [hr]
      exact setControlVolumeReq_vleft_mem hlt

/-- An 8-bit control with range [3, 77]. -/
def exCtrl : Control :=
  { callocControl with ctype := .stereoSlider, minvalue := 3,
                       maxvalue := 77, needsRedraw := true }

/-- A state with `exCtrl` as the single, selected control. -/
def exView : MixerView :=
  { controls := #[exCtrl],
    uiDevControls := some 0, uiVmixControls := none, uiCurrControl := some 0 }

/-- Witness for C4's amended theorem at concrete inputs. -/
theorem decode_range_and_write_clamp_witness :
    (0 ≤ decodeVolume .stereoSlider 0 255 200 ∧ decodeVolume .stereoSlider 0 255 200 ≤ 100)
    ∧ (∀ r, setVolumeOp exView 140 = some r → (3 : Int) ≤ r.vleft ∧ r.vleft ≤ 77)
    ∧ (∀ r, modifyVolumeOp exView (some 40) 1 = some (some r) →
        (3 : Int) ≤ r.vleft ∧ r.vleft ≤ 77) := by
  obtain ⟨h1, h2, h3⟩ := decode_range_and_write_clamp
  refine ⟨h1 .stereoSlider 255 200 (by decide) (by decide) (by decide), ?_, ?_⟩
  · intro r hr
    exact h2 exView 0 exCtrl 140 r rfl (by decide) (by decide) hr
  · intro r hr
    exact h3 exView 0 exCtrl 40 1 r rfl (by decide) (by decide) hr

/-- C5: after a single-device load, repeated `move_to_next_control`
starting from the freshly selected head of a nonempty `Device` list
visits the device-group controls in ascending control-index order,
then the vmix-group controls in ascending order, and afterwards leaves
the selection unchanged (the selected index after `k` presses is
element `min k (len-1)` of the concatenated ascending index lists).
When the selection has a successor in its own list it moves there;
at the device-list tail it falls through to the vmix head; at the vmix
tail nothing changes — all by construction of `moveToNextControl`. -/
theorem move_next_traversal (metas : List CtrlMeta) (hdev : devIdxs metas ≠ []) (k : Nat) :
    (iterNext k (mixer0View (load_mixers (envOfMetas metas)))).map
        MixerView.uiCurrControl =
      some (some ((devIdxs metas ++ vmixIdxs metas).getD
        (min k ((devIdxs metas ++ vmixIdxs metas).length - 1)) 0)) :=
  nav_next_run metas hdev k

/-- Witness for C5: on `exMetas` (device controls 0 and 2, vmix
control 3) the third press reaches control 3, the vmix head, and a
sixth press stays there. -/
theorem move_next_traversal_witness :
    devIdxs exMetas ≠ []
    ∧ (iterNext 2 (mixer0View (load_mixers (envOfMetas exMetas)))).map
        MixerView.uiCurrControl = some (some 3)
    ∧ (iterNext 6 (mixer0View (load_mixers (envOfMetas exMetas)))).map
        MixerView.uiCurrControl = some (some 3) := by
  refine ⟨by decide, ?_, ?_⟩
  · have h := move_next_traversal exMetas (by decide) 2
    rw [h]
    decide
  · have h := move_next_traversal exMetas (by decide) 6
    rw [h]
    decide

/-- C6: starting from the tail of a nonempty vmix list of a freshly
loaded device with a nonempty `Device` list, repeated
`move_to_previous_control` visits the vmix controls in descending
index order, then (falling through via the forward walk from the
device-list head, lines 461-463) the device controls in descending
order, ending at the device head where no further movement occurs (the
selected index after `k` presses is element `min k (len-1)` of the
concatenated descending index lists). -/
theorem move_previous_traversal (metas : List CtrlMeta) (hdev : devIdxs metas ≠ [])
    (hvm : vmixIdxs metas ≠ []) (k : Nat) :
    (iterPrev k { mixer0View (load_mixers (envOfMetas metas)) with
        uiCurrControl := (vmixIdxs metas).getLast? }).map MixerView.uiCurrControl =
      some (some (((vmixIdxs metas).reverse ++ (devIdxs metas).reverse).getD
        (min k (((vmixIdxs metas).reverse ++ (devIdxs metas).reverse).length - 1)) 0)) :=
  nav_prev_run metas hdev hvm k

/-- Witness for C6: on `exMetas`, from vmix control 3 one press lands
on device control 2, two presses on device control 0, and five
presses stay there. -/
theorem move_previous_traversal_witness :
    devIdxs exMetas ≠ [] ∧ vmixIdxs exMetas ≠ []
    ∧ (iterPrev 1 { mixer0View (load_mixers (envOfMetas exMetas)) with
        uiCurrControl := (vmixIdxs exMetas).getLast? }).map MixerView.uiCurrControl =
      some (some 2)
    ∧ (iterPrev 5 { mixer0View (load_mixers (envOfMetas exMetas)) with
        uiCurrControl := (vmixIdxs exMetas).getLast? }).map MixerView.uiCurrControl =
      some (some 0) := by
  refine ⟨by decide, by decide, ?_, ?_⟩
  · have h := move_previous_traversal exMetas (by decide) (by decide) 1
    rw [h]
    decide
  · have h := move_previous_traversal exMetas (by decide) (by decide) 5
    rw [h]
    decide

/-- C7: `get_control_volume` computes
`percentage = min + (left * 100) / (max - min)` with C's truncating
integer division, where `left` is the low byte of the raw value for
`MIXT_STEREOSLIDER` and the low 16 bits for `MIXT_STEREOSLIDER16`;
in particular `min=0, max=255, left=128` yields exactly 50 (truncated,
not a rounded 50.19). -/
theorem decode_truncating_formula :
    (∀ (minv maxv : Int) (raw : Nat),
        decodeVolume .stereoSlider minv maxv raw =
          minv + Int.tdiv (((raw % 256 : Nat) : Int) * 100) (maxv - minv))
    ∧ (∀ (minv maxv : Int) (raw : Nat),
        decodeVolume .stereoSlider16 minv maxv raw =
          minv + Int.tdiv (((raw % 65536 : Nat) : Int) * 100) (maxv - minv))
    ∧ decodeVolume .stereoSlider 0 255 128 = 50 := by
  refine ⟨fun minv maxv raw => ?_, fun minv maxv raw => ?_, by decide⟩
  · unfold decodeVolume vleftOf
    have h : raw &&& 255 = raw % 256 := by
      have := Nat.and_pow_two_sub_one_eq_mod raw 8
      norm_num at this
      exact this
    rw [h]
  · unfold decodeVolume vleftOf
    have h : raw &&& 65535 = raw % 65536 := by
      have := Nat.and_pow_two_sub_one_eq_mod raw 16
      norm_num at this
      exact this
    rw [h]

/-- C8: for the full-range 8-bit control (`min=0, max=100`), encoding
any percentage `10*k` (k ≤ 10) with `set_control_volume`, writing the
packed word, reading the same word back and decoding it with
`get_control_volume` reproduces the percentage exactly. -/
theorem roundtrip_full_range_8bit :
    ∀ k : Nat, k ≤ 10 → roundTrip8 (10 * k) = 10 * k := by
  decide

/-- Witness for C8 at a concrete percentage. -/
theorem roundtrip_full_range_8bit_witness :
    (3 : Nat) ≤ 10 ∧ roundTrip8 30 = 30 := by
  refine ⟨by decide, ?_⟩
  have h := roundtrip_full_range_8bit 3 (by decide)
  norm_num at h
  exact h

/-- C9: in a draw pass over distinct in-bounds controls, a control is
fetched through the volume transport exactly when its dirty bit is
set (the fetch log is the dirty sublist of the pass, so a failed fetch
never stops the remaining controls from being processed); after the
pass a control's dirty bit is set exactly when it was set before and
its fetch failed — a successful draw clears it, a failed fetch leaves
it set — and controls outside the pass are untouched. -/
theorem draw_pass_dirty_iff (fetch : Nat → Option Nat) (order : List Nat)
    (a : Array Control) (hnd : order.Nodup) (hbnd : ∀ i ∈ order, i < a.size) :
    (drawPass fetch a order).2 = order.filter (dirtyAt a)
    ∧ (∀ i ∈ order,
        ((drawPass fetch a order).1[i]?).map Control.needsRedraw =
          (a[i]?).map (fun c => c.needsRedraw && (fetch i).isNone))
    ∧ (∀ j, j ∉ order → (drawPass fetch a order).1[j]? = a[j]?) :=
  drawPass_spec fetch order a hnd hbnd

/-- A two-control array: control 0 dirty, control 1 clean. -/
def exDrawArr : Array Control :=
  #[{ callocControl with ctype := .stereoSlider, maxvalue := 100, needsRedraw := true },
    { callocControl with ctype := .stereoSlider, maxvalue := 100 }]

/-- A transport that fails on control 0 and succeeds elsewhere. -/
def exFetch (i : Nat) : Option Nat := if i = 0 then none else some 25

/-- Witness for C9: only the dirty control 0 is fetched; its fetch
fails so its bit stays set; the clean control 1 is not fetched and
stays clean; nothing outside the pass changes. -/
theorem draw_pass_dirty_iff_witness :
    (drawPass exFetch exDrawArr [0, 1]).2 = List.filter (dirtyAt exDrawArr) [0, 1]
    ∧ ((drawPass exFetch exDrawArr [0, 1]).1[0]?).map Control.needsRedraw =
        (exDrawArr[0]?).map (fun c => c.needsRedraw && (exFetch 0).isNone)
    ∧ (drawPass exFetch exDrawArr [0, 1]).1[5]? = exDrawArr[5]? := by
  obtain ⟨hlog, hdirty, hoff⟩ := draw_pass_dirty_iff exFetch [0, 1] exDrawArr
    (by decide) (by decide)
  exact ⟨hlog, hdirty 0 (by decide), hoff 5 (by decide)⟩

/-- C10: every interactive operation (`move_to_next_control`,
`move_to_previous_control`, the volume step of `modify_volume`, the
absolute set of `set_volume`) dereferences
`cur_mixer->ui_curr_control` unconditionally; after loading a device
whose `Device` list is empty — even with vmix controls present —
line 269 leaves `ui_curr_control` NULL, so each operation's
null-dereference branch (modelled as the `none` outcome) is
reachable. -/
theorem null_current_selection_reachable (metas : List CtrlMeta)
    (hdev : devIdxs metas = []) (_hvm : vmixIdxs metas ≠ []) :
    (mixer0View (load_mixers (envOfMetas metas))).uiCurrControl = none
    ∧ moveToNextControl (mixer0View (load_mixers (envOfMetas metas))) = none
    ∧ moveToPreviousControl (mixer0View (load_mixers (envOfMetas metas))) = none
    ∧ (∀ (readRaw : Option Nat) (sign : Int),
        modifyVolumeOp (mixer0View (load_mixers (envOfMetas metas))) readRaw sign = none)
    ∧ (∀ volume : Int,
        setVolumeOp (mixer0View (load_mixers (envOfMetas metas))) volume = none) := by
  have hnull := load_empty_dev_list_curr_none metas hdev
  exact ⟨hnull, moveToNextControl_null hnull, moveToPreviousControl_null hnull,
    fun r s => modifyVolumeOp_null hnull r s, fun vol => setVolumeOp_null hnull vol⟩

/-- Witness for C10 on a device whose only navigable control is a vmix
one. -/
theorem null_current_selection_reachable_witness :
    devIdxs exMetasVmixOnly = [] ∧ vmixIdxs exMetasVmixOnly ≠ []
    ∧ moveToNextControl (mixer0View (load_mixers (envOfMetas exMetasVmixOnly))) = none
    ∧ setVolumeOp (mixer0View (load_mixers (envOfMetas exMetasVmixOnly))) 50 = none := by
  have h := null_current_selection_reachable exMetasVmixOnly (by decide) (by decide)
  exact ⟨by decide, by decide, h.2.1, h.2.2.2.2 50⟩
